import Mathlib

/-!
Verification of the droll roll-resolution engine.

Shallow embedding of `src/utils/engine.ts` and the aggregation logic of
`src/components/Roller.tsx`. JavaScript numbers that may be `undefined` or
`NaN` are modelled as `Option Int` (`none` stands for the non-numeric
value); JavaScript field lookups in `Record<string, number>` objects are
modelled as functions into `Option Int`. The nondeterministic `generateId`
is modelled as an explicit supply of identifier strings, so that every
function is a pure, total Lean function.
-/

namespace Droll

/-! ## JavaScript-semantics primitives -/

/-- Addition of possibly non-numeric JS values: `undefined + x` and
`NaN + x` are `NaN`, modelled by `none` propagation. -/
def jsAdd : Option Int → Option Int → Option Int
  | some a, some b => some (a + b)
  | _, _ => none

/-- JS strict equality `===` restricted to the values that occur in the
engine: two numbers, or `undefined` on either side
(`undefined === undefined` is true). -/
def jsEqNum : Option Int → Option Int → Bool
  | some a, some b => a == b
  | none, none => true
  | _, _ => false

/-- JS `>=` on possibly-`undefined` numbers: any comparison involving a
non-number is false. -/
def jsGeNum : Option Int → Option Int → Bool
  | some a, some b => b ≤ a
  | _, _ => false

/-- JS truthiness of an optional boolean (`undefined` is falsy). -/
def jsTruthyB : Option Bool → Bool
  | some b => b
  | none => false

/-- JS `x || d` for an optional number: `undefined`, `NaN` and `0` all
fall through to the default. -/
def jsOrD (x : Option Int) (d : Int) : Int :=
  match x with
  | some v => if v = 0 then d else v
  | none => d

/-- The whitespace characters stripped by `\s` in the engine regexes and
skipped by `parseInt` (the ASCII ones plus no-break space; the exotic
Unicode space code points never occur in dice formulas). -/
def isJSWhitespace (c : Char) : Bool :=
  c = ' ' || c = '\t' || c = '\n' || c = '\r' || c = '\x0b' || c = '\x0c' || c = ' '

/-- Numeric value of a decimal digit run (most significant first). -/
def digitsToNat (ds : List Char) : Nat :=
  ds.foldl (fun a c => 10 * a + (c.toNat - '0'.toNat)) 0

/-- Value of a hexadecimal digit, if any. -/
def hexDigitVal (c : Char) : Option Nat :=
  if '0' ≤ c ∧ c ≤ '9' then some (c.toNat - '0'.toNat)
  else if 'a' ≤ c ∧ c ≤ 'f' then some (c.toNat - 'a'.toNat + 10)
  else if 'A' ≤ c ∧ c ≤ 'F' then some (c.toNat - 'A'.toNat + 10)
  else none

def isHexDigit (c : Char) : Bool :=
  (hexDigitVal c).isSome

/-- Numeric value of a hexadecimal digit run. -/
def hexToNat (ds : List Char) : Nat :=
  ds.foldl (fun a c => 16 * a + (hexDigitVal c).getD 0) 0

/-- JS `parseInt(s)` with no radix argument: skip leading whitespace, read
an optional sign, then the longest digit prefix (hexadecimal after a
`0x`/`0X` prefix, decimal otherwise); `none` models `NaN` when no digit
follows. Trailing garbage is ignored. -/
def parseIntJS (s : String) : Option Int :=
  let cs := s.data.dropWhile isJSWhitespace
  let neg := cs.head? = some '-'
  let cs2 := if cs.head? = some '-' || cs.head? = some '+' then cs.tail else cs
  let hex : Bool :=
    match cs2 with
    | c0 :: c1 :: _ => c0 = '0' && (c1 = 'x' || c1 = 'X')
    | _ => false
  if hex then
    let hs := (cs2.drop 2).takeWhile isHexDigit
    if hs.isEmpty then none
    else some ((if neg then -1 else 1) * (hexToNat hs : Int))
  else
    let ds := cs2.takeWhile Char.isDigit
    if ds.isEmpty then none
    else some ((if neg then -1 else 1) * (digitsToNat ds : Int))

/-! ## Simple formula parser (`parseFormula`)

Models the regex `^(\d*)d(\d+)([\+\-]\d+)?$` applied to the lowercased
formula. The match groups are returned as options: `none` for an empty
count group and for an absent modifier group. Since a digit run cannot
contain `d` or a sign, the regex admits no backtracking and this
deterministic decomposition is exactly the regex semantics. -/

/-- Result shape of the simple parser. -/
structure SimpleParse where
  count : Nat
  sides : Nat
  modifier : Int
deriving DecidableEq, Repr

/-- Match `^(\d*)d(\d+)([\+\-]\d+)?$` against a character list, returning
(count group if nonempty, sides, modifier group if present). -/
def simpleMatch (cs : List Char) : Option (Option Nat × Nat × Option Int) :=
  let ds1 := cs.takeWhile Char.isDigit
  match cs.dropWhile Char.isDigit with
  | c0 :: r2 =>
    if c0 = 'd' then
      let ds2 := r2.takeWhile Char.isDigit
      if ds2.isEmpty then none
      else
        match r2.dropWhile Char.isDigit with
        | [] => some (if ds1.isEmpty then none else some (digitsToNat ds1), digitsToNat ds2,
            none)
        | c :: r4 =>
          if c = '+' || c = '-' then
            let ds3 := r4.takeWhile Char.isDigit
            if ds3.isEmpty || !(r4.dropWhile Char.isDigit).isEmpty then none
            else
              some (if ds1.isEmpty then none else some (digitsToNat ds1), digitsToNat ds2,
                some ((if c = '-' then -1 else 1) * (digitsToNat ds3 : Int)))
          else none
    else none
  | [] => none

/-- `parseFormula` from `src/utils/engine.ts`: simple dice parser for
`2d6+4`, `1d20-1` or `d6`; a bare `parseInt`-able string yields a pure
constant; anything else falls back to `{1, 20, 0}`. The regex is applied
to the lowercased string, `parseInt` to the original (lowercasing is
modelled on ASCII, which covers every character the regex can accept). -/
def parseFormula (formula : String) : SimpleParse :=
  match simpleMatch (formula.data.map Char.toLower) with
  | some (c?, s, m?) => ⟨c?.getD 1, s, m?.getD 0⟩
  | none =>
    match parseIntJS formula with
    | some k => ⟨0, 0, k⟩
    | none => ⟨1, 20, 0⟩

/-! ## Advanced formula parser (`parseFormulaAdvanced`)

Models the global regex scan `normalized.match(/[+\-](\d*d\d+|\d+)/g)`:
the scanner walks the string left to right; at a sign character it tries
the dice alternative first and the plain-number alternative second,
consuming the match on success and advancing one character on failure.
The scanner is written with explicit fuel (the input length bounds the
number of steps) to make it structurally recursive. -/

/-- One dice group of the advanced parser. -/
structure DiceGroup where
  count : Nat
  sides : Nat
deriving DecidableEq, Repr

/-- Result of the advanced parser. -/
structure AdvParse where
  diceGroups : List DiceGroup
  modifier : Int
deriving DecidableEq, Repr

/-- Attempt the alternation `\d*d\d+|\d+` at the current position
(after the sign): returns the matched expression and the rest of the
input. The dice alternative is preferred; when it fails because no digit
follows the `d`, the plain-number alternative still matches the leading
digit run, exactly as the regex backtracks. -/
def matchTerm (cs : List Char) : Option (List Char × List Char) :=
  let ds1 := cs.takeWhile Char.isDigit
  match cs.dropWhile Char.isDigit with
  | c0 :: r2 =>
    if c0 = 'd' then
      let ds2 := r2.takeWhile Char.isDigit
      if ds2.isEmpty then
        if ds1.isEmpty then none else some (ds1, c0 :: r2)
      else
        some (ds1 ++ c0 :: ds2, r2.dropWhile Char.isDigit)
    else
      if ds1.isEmpty then none else some (ds1, c0 :: r2)
  | [] =>
    if ds1.isEmpty then none else some (ds1, [])

/-- Fuel-indexed scanner for `/[+\-](\d*d\d+|\d+)/g`: each part is the
sign flag (true for `-`) and the matched expression without the sign. -/
def scanPartsF : Nat → List Char → List (Bool × List Char)
  | 0, _ => []
  | _ + 1, [] => []
  | fuel + 1, c :: rest =>
    if c = '+' || c = '-' then
      match matchTerm rest with
      | some er => (c = '-', er.1) :: scanPartsF fuel er.2
      | none => scanPartsF fuel rest
    else scanPartsF fuel rest

/-- All matches of `/[+\-](\d*d\d+|\d+)/g` in scan order. -/
def scanParts (cs : List Char) : List (Bool × List Char) :=
  scanPartsF cs.length cs

/-- Match `^(\d*)d(\d+)$` against a part expression, returning the count
(1 when the count group is empty) and the sides. -/
def dMatchExpr (expr : List Char) : Option (Nat × Nat) :=
  let ds1 := expr.takeWhile Char.isDigit
  match expr.dropWhile Char.isDigit with
  | c0 :: r2 =>
    if c0 = 'd' then
      let ds2 := r2.takeWhile Char.isDigit
      if ds2.isEmpty || !(r2.dropWhile Char.isDigit).isEmpty then none
      else some (if ds1.isEmpty then 1 else digitsToNat ds1, digitsToNat ds2)
    else none
  | [] => none

/-- Loop body of `parseFormulaAdvanced`: a dice expression contributes
`count` single-die groups regardless of its sign; a flat expression
contributes `sign * value` to the modifier. -/
def processPart (acc : AdvParse) (p : Bool × List Char) : AdvParse :=
  if p.2.contains 'd' then
    match dMatchExpr p.2 with
    | some cs => { acc with diceGroups := acc.diceGroups ++ List.replicate cs.1 ⟨1, cs.2⟩ }
    | none => acc
  else
    match parseIntJS (String.mk p.2) with
    | some n => { acc with modifier := acc.modifier + (if p.1 then -n else n) }
    | none => acc

/-- Normalization step of `parseFormulaAdvanced`: strip whitespace,
lowercase, and prepend `+` unless the string already starts with a
sign (the empty string also gets the `+`). -/
def normalizeAdv (formula : String) : List Char :=
  let cleaned := (formula.data.filter (fun c => !isJSWhitespace c)).map Char.toLower
  match cleaned with
  | [] => ['+']
  | c :: _ => if c = '+' || c = '-' then cleaned else '+' :: cleaned

/-- `parseFormulaAdvanced` from `src/utils/engine.ts`: parse a complex
formula such as `2d12+d6+d4+5` into single-die groups plus a flat
modifier. -/
def parseFormulaAdvanced (formula : String) : AdvParse :=
  (scanParts (normalizeAdv formula)).foldl processPart ⟨[], 0⟩

/-! ## Data model (`src/types.ts`) -/

/-- The two rule systems a step can belong to. -/
inductive StepType where
  | standard
  | daggerheart
deriving DecidableEq, Repr

/-- Duality outcome classification of a daggerheart step. -/
inductive DhOutcome where
  | hope
  | fear
  | crit
deriving DecidableEq, Repr

/-- Condition operators (`ConditionOperator` in `src/types.ts`). -/
inductive ConditionOperator where
  | gt
  | lt
  | ge
  | le
  | eq
  | is_hope
  | is_fear
  | is_crit
deriving DecidableEq, Repr

/-- What a condition checks: a prior step result or a variable value. -/
inductive CheckSource where
  | step_result
  | variable
deriving DecidableEq, Repr

/-- What the threshold of a condition comes from. -/
inductive CompareTarget where
  | value
  | variable
deriving DecidableEq, Repr

/-- `RollCondition` from `src/types.ts`; optional fields are options. -/
structure RollCondition where
  checkSource : Option CheckSource
  dependsOnStepId : Option String
  checkVariableId : Option String
  operator : ConditionOperator
  compareTarget : CompareTarget
  value : Option Int
  variableId : Option String
deriving DecidableEq, Repr

/-- `RollStep` from `src/types.ts`. `damageType` is kept as the literal
string tag it is in the source. -/
structure RollStep where
  id : String
  label : String
  type : StepType
  formula : String
  statModifier : Option String
  damageType : String
  condition : Option RollCondition
  addToSum : Option Bool
  isCrit : Option Bool
deriving DecidableEq, Repr

/-- Role of a pending die (`PendingDie.type` in `src/utils/engine.ts`). -/
inductive DieType where
  | standard
  | hope
  | fear
deriving DecidableEq, Repr

/-- `PendingDie` from `src/utils/engine.ts` (the optional `isCrit` marker
is never read by the engine and is omitted). -/
structure PendingDie where
  id : String
  sides : Nat
  type : DieType
deriving DecidableEq, Repr

/-- `StepResult` from `src/types.ts`. `total` is `none` when the JS value
would be `NaN`; entries of `rolls` are `none` when the JS value would be
`undefined`; the three duality fields are `none` on standard results. -/
structure StepResult where
  stepId : String
  uniqueId : String
  label : String
  total : Option Int
  rolls : List (Option Int)
  formula : String
  type : StepType
  damageType : String
  skipped : Bool
  addToSum : Option Bool
  wasCrit : Bool
  dhHope : Option Int
  dhFear : Option Int
  dhOutcome : Option DhOutcome
deriving DecidableEq, Repr

/-- A custom character stat. -/
structure CustomStat where
  id : String
  name : String
  value : Int

/-- `CharacterStats` from `src/types.ts`: the record objects are modelled
as partial maps. -/
structure CharacterStats where
  dndAttributes : String → Option Int
  dndSkills : String → Option Int
  daggerheartStats : String → Option Int
  customStats : List CustomStat

/-! ## Stat resolver -/

/-- JS `key.split(':')` destructured as `[type, id]`: the segment after
the first colon, `none` when the key has no colon. -/
def splitKey (k : String) : String × Option String :=
  match k.splitOn ":" with
  | [] => ("", none)
  | [t] => (t, none)
  | t :: i :: _ => (t, some i)

/-- `getStatModifierValue` from `src/utils/engine.ts`. A falsy key (absent
or empty) resolves to 0; `dnd_attr` applies `floor((val - 10) / 2)` with
the JS `|| 10` default; the other namespaces apply `|| 0`. -/
def getStatModifierValue (stats : CharacterStats) (key : Option String) : Int :=
  match key with
  | none => 0
  | some k =>
    if k.isEmpty then 0
    else
      let ti := splitKey k
      let look : (String → Option Int) → Option Int := fun m =>
        match ti.2 with
        | some i => m i
        | none => none
      if ti.1 = "dnd_attr" then Int.fdiv (jsOrD (look stats.dndAttributes) 10 - 10) 2
      else if ti.1 = "dnd_skill" then jsOrD (look stats.dndSkills) 0
      else if ti.1 = "dh" then jsOrD (look stats.daggerheartStats) 0
      else if ti.1 = "custom" then
        jsOrD
          (match ti.2 with
            | some i => (stats.customStats.find? (fun s => s.id = i)).map CustomStat.value
            | none => none) 0
      else 0

/-- `id.charAt(0).toUpperCase() + id.slice(1)` (ASCII case mapping). -/
def capitalizeJS (s : String) : String :=
  match s.data with
  | [] => ""
  | c :: rest => String.mk (c.toUpper :: rest)

/-- `getStatLabel` from `src/utils/engine.ts`. The path where the key has
a namespace but no id would throw in JS (`undefined.toUpperCase()`); it is
unreachable from the roller, which only builds labels for nonzero stat
modifiers, and is modelled as the empty id. -/
def getStatLabel (stats : CharacterStats) (key : Option String) : String :=
  match key with
  | none => ""
  | some k =>
    if k.isEmpty then ""
    else
      let ti := splitKey k
      let id := ti.2.getD ""
      if ti.1 = "dnd_attr" then id.toUpper
      else if ti.1 = "dnd_skill" then capitalizeJS id
      else if ti.1 = "dh" then capitalizeJS id
      else if ti.1 = "custom" then
        match (stats.customStats.find? (fun s => s.id = id)).map CustomStat.name with
        | some n => n
        | none => "Custom"
      else "Unknown"

/-! ## Dice requirement planner (`getStepDiceConfig`)

`generateId` draws from `Math.random()`; it is modelled by an explicit
supply `ids : Nat → String` together with a counter, consumed in exactly
the order the source calls `generateId()`. -/

/-- Dice configuration of one step. -/
structure DiceConfig where
  dice : List PendingDie
  baseModifier : Int
deriving Repr

/-- The loop over parsed dice groups of a daggerheart step: the first two
d12 groups are absorbed into the hope and fear baseline (counted by
`d12Count`), every other group becomes a standard die. Returns the extra
dice and the next id counter. -/
def dualityExtraDice (ids : Nat → String) : Nat → Nat → List DiceGroup → List PendingDie × Nat
  | k, _, [] => ([], k)
  | k, d12Count, g :: rest =>
    if g.sides = 12 && d12Count < 2 then dualityExtraDice ids k (d12Count + 1) rest
    else
      let t := dualityExtraDice ids (k + 1) d12Count rest
      (⟨ids k, g.sides, DieType.standard⟩ :: t.1, t.2)

/-- `getStepDiceConfig` from `src/utils/engine.ts`. For daggerheart the
fixed hope and fear d12s come first, then the extra dice of the formula
(`step.formula || ""` equals `step.formula`, since the field is a string
and `"" || ""` is `""`). For standard steps, `count` dice of `sides`
sides. Returns the configuration and the next id counter. -/
def getStepDiceConfig (ids : Nat → String) (k : Nat) (step : RollStep) : DiceConfig × Nat :=
  if step.type = StepType.daggerheart then
    let adv := parseFormulaAdvanced step.formula
    let et := dualityExtraDice ids (k + 2) 0 adv.diceGroups
    (⟨⟨ids k, 12, DieType.hope⟩ :: ⟨ids (k + 1), 12, DieType.fear⟩ :: et.1, adv.modifier⟩, et.2)
  else
    let p := parseFormula step.formula
    (⟨(List.range p.count).map (fun i => ⟨ids (k + i), p.sides, DieType.standard⟩), p.modifier⟩,
      k + p.count)

/-! ## Condition evaluator (`checkCondition`) -/

/-- `previousResults.find(r => r.stepId === dependsOnStepId)`: when the
referenced id is `undefined` the strict comparison with a string id is
always false, so nothing is found. -/
def findDependency (previousResults : List StepResult) (c : RollCondition) : Option StepResult :=
  match c.dependsOnStepId with
  | some id => previousResults.find? (fun r => r.stepId == id)
  | none => none

/-- The three rule-system-specific operators. -/
def isDhOp : ConditionOperator → Bool
  | ConditionOperator.is_hope => true
  | ConditionOperator.is_fear => true
  | ConditionOperator.is_crit => true
  | _ => false

/-- `checkCondition` from `src/utils/engine.ts`. The two early
`return false` paths (variable source with falsy variable id; step-result
source with missing or skipped dependency) are modelled by the `none`
case of `src`. -/
def checkCondition (step : RollStep) (previousResults : List StepResult)
    (variableValues : String → Option Int) : Bool :=
  match step.condition with
  | none => true
  | some c =>
    let checkSource := c.checkSource.getD CheckSource.step_result
    let value := c.value.getD 0
    let src : Option (Option Int × Option DhOutcome) :=
      match checkSource with
      | CheckSource.variable =>
        match c.checkVariableId with
        | some vid => if vid.isEmpty then none else some (some ((variableValues vid).getD 0), none)
        | none => none
      | CheckSource.step_result =>
        match findDependency previousResults c with
        | some prev => if prev.skipped then none else some (prev.total, prev.dhOutcome)
        | none => none
    match src with
    | none => false
    | some sv =>
      let sourceValue := sv.1
      let dhOutcome := sv.2
      let threshold : Int :=
        if isDhOp c.operator then 0
        else
          match c.compareTarget, c.variableId with
          | CompareTarget.variable, some v =>
            if v.isEmpty then value else (variableValues v).getD 0
          | _, _ => value
      match c.operator with
      | ConditionOperator.gt =>
        match sourceValue with
        | some v => decide (threshold < v)
        | none => false
      | ConditionOperator.lt =>
        match sourceValue with
        | some v => decide (v < threshold)
        | none => false
      | ConditionOperator.ge =>
        match sourceValue with
        | some v => decide (threshold ≤ v)
        | none => false
      | ConditionOperator.le =>
        match sourceValue with
        | some v => decide (v ≤ threshold)
        | none => false
      | ConditionOperator.eq =>
        match sourceValue with
        | some v => decide (v = threshold)
        | none => false
      | ConditionOperator.is_hope =>
        dhOutcome == some DhOutcome.hope || dhOutcome == some DhOutcome.crit
      | ConditionOperator.is_fear => dhOutcome == some DhOutcome.fear
      | ConditionOperator.is_crit => dhOutcome == some DhOutcome.crit

/-! ## Step resolver (`resolveStepResult`, `createSkippedResult`) -/

/-- `resolveStepResult` from `src/utils/engine.ts`. `uniqueId` models the
`generateId()` call; `diceValues` is the map from die id to rolled value
(a lookup of an absent key is JS `undefined`, modelled `none`). -/
def resolveStepResult (uniqueId : String) (step : RollStep)
    (diceValues : String → Option Int) (diceConfig : List PendingDie)
    (totalModifier : Int) (displayFormula : String) (forceCrit : Bool) : StepResult :=
  if step.type = StepType.daggerheart then
    let hopeDie := diceConfig.find? (fun d => d.type == DieType.hope)
    let fearDie := diceConfig.find? (fun d => d.type == DieType.fear)
    let hope : Option Int :=
      match hopeDie with
      | some d => diceValues d.id
      | none => some 0
    let fear : Option Int :=
      match fearDie with
      | some d => diceValues d.id
      | none => some 0
    let outcome : DhOutcome :=
      if jsEqNum hope fear then DhOutcome.crit
      else if jsGeNum hope fear then DhOutcome.hope
      else DhOutcome.fear
    { stepId := step.id
      uniqueId := uniqueId
      label := step.label
      total := jsAdd (jsAdd hope fear) (some totalModifier)
      rolls := [hope, fear]
      formula := displayFormula
      type := StepType.daggerheart
      damageType := step.damageType
      skipped := false
      addToSum := step.addToSum
      wasCrit := outcome == DhOutcome.crit
      dhHope := hope
      dhFear := fear
      dhOutcome := some outcome }
  else
    let rolls := diceConfig.map (fun d => diceValues d.id)
    let sum := rolls.foldl jsAdd (some 0)
    let wasCrit := forceCrit || jsTruthyB step.isCrit
    let maxDice : Int := diceConfig.foldl (fun acc d => acc + (d.sides : Int)) 0
    let total :=
      if wasCrit && decide (0 < diceConfig.length) then
        jsAdd (jsAdd (some maxDice) sum) (some totalModifier)
      else jsAdd sum (some totalModifier)
    { stepId := step.id
      uniqueId := uniqueId
      label := step.label
      total := total
      rolls := rolls
      formula := displayFormula
      type := StepType.standard
      damageType := step.damageType
      skipped := false
      addToSum := step.addToSum
      wasCrit := wasCrit
      dhHope := none
      dhFear := none
      dhOutcome := none }

/-- `createSkippedResult` from `src/utils/engine.ts`. -/
def createSkippedResult (uniqueId : String) (step : RollStep) : StepResult :=
  { stepId := step.id
    uniqueId := uniqueId
    label := step.label
    total := some 0
    rolls := []
    formula := step.formula
    type := step.type
    damageType := step.damageType
    skipped := true
    addToSum := step.addToSum
    wasCrit := false
    dhHope := none
    dhFear := none
    dhOutcome := none }

/-! ## Grand total aggregation (`calculateGrandTotalFromResults` in
`src/components/Roller.tsx`) -/

/-- The filter of `calculateGrandTotalFromResults`:
`!r.skipped && r.addToSum` with JS truthiness on the optional flag. -/
def includedB (r : StepResult) : Bool :=
  !r.skipped && jsTruthyB r.addToSum

/-- `r.damageType === 'none' ? 'typeless' : r.damageType`. -/
def normTypeOf (r : StepResult) : String :=
  if r.damageType = "none" then "typeless" else r.damageType

/-- One step of building the category map:
`groups[type] = (groups[type] || 0) + r.total`, with JS object key
insertion order preserved (an existing key is updated in place, a new key
is appended). -/
def updateGroup : List (String × Option Int) → String → Option Int → List (String × Option Int)
  | [], key, t => [(key, jsAdd (some 0) t)]
  | (k, v) :: rest, key, t =>
    if k = key then (k, jsAdd (some (v.getD 0)) t) :: rest
    else (k, v) :: updateGroup rest key t

/-- The `forEach` of `calculateGrandTotalFromResults` building the
per-category sums over the included results. -/
def groupsOf (included : List StepResult) : List (String × Option Int) :=
  included.foldl (fun g r => updateGroup g (normTypeOf r) r.total) []

/-- JS string interpolation of a possibly non-numeric value. -/
def optIntStr : Option Int → String
  | some n => toString n
  | none => "NaN"

/-- Aggregate result of `calculateGrandTotalFromResults`. -/
structure GrandTotal where
  grandTotal : Option Int
  breakdown : String
  count : Nat
deriving DecidableEq, Repr

/-- `calculateGrandTotalFromResults` from `src/components/Roller.tsx`:
filter to non-skipped results with the include-in-total flag, sum their
totals, and render the per-category breakdown string. -/
def calculateGrandTotalFromResults (resArray : List StepResult) : GrandTotal :=
  let includedResults := resArray.filter includedB
  let grandTotal := includedResults.foldl (fun s r => jsAdd s r.total) (some 0)
  let groups := groupsOf includedResults
  let parts := groups.map (fun p => optIntStr p.2 ++ " " ++ p.1)
  let breakdown :=
    if 0 < parts.length then "(" ++ String.intercalate " + " parts ++ ")" else ""
  ⟨grandTotal, breakdown, includedResults.length⟩

/-! ## Chain orchestration (`evaluateNextStep` / `handleRollComplete` in
`src/components/Roller.tsx`)

Per-step dice values arrive from the physics engine keyed by the
generated die ids; they are modelled as `valuesOf : Nat → String →
Option Int`, the value map of the step at a given index. The filter the
roller applies (`diceValues[id] !== undefined` over the active step dice)
does not change any lookup the resolver performs and is dropped. -/

/-- The display formula built in `handleRollComplete`:
`` `${step.formula} ${statMod >= 0 ? '+' : ''}${statMod} (${label})` ``
when a stat modifier applies. -/
def displayFormulaOf (stats : CharacterStats) (step : RollStep) (statMod : Int) : String :=
  if statMod != 0 && (match step.statModifier with | some k => !k.isEmpty | none => false) then
    step.formula ++ " " ++ (if 0 ≤ statMod then "+" else "") ++ toString statMod
      ++ " (" ++ getStatLabel stats step.statModifier ++ ")"
  else step.formula

/-- The sequential step loop of the roller: evaluate the condition against
the accumulated results, then either synthesize a skipped result or plan
dice and resolve with the rolled values. `k` is the id-supply counter and
`stepIdx` the index into the per-step value maps. -/
def runChainAux (stats : CharacterStats) (vars : String → Option Int)
    (valuesOf : Nat → String → Option Int) (ids : Nat → String) :
    Nat → Nat → List StepResult → List RollStep → List StepResult
  | _, _, _, [] => []
  | k, stepIdx, prior, step :: rest =>
    if checkCondition step prior vars then
      let ck := getStepDiceConfig ids k step
      let statMod := getStatModifierValue stats step.statModifier
      let totalModifier := ck.1.baseModifier + statMod
      let df := displayFormulaOf stats step statMod
      let r := resolveStepResult (ids ck.2) step (valuesOf stepIdx) ck.1.dice totalModifier df false
      r :: runChainAux stats vars valuesOf ids (ck.2 + 1) (stepIdx + 1) (prior ++ [r]) rest
    else
      let r := createSkippedResult (ids k) step
      r :: runChainAux stats vars valuesOf ids (k + 1) (stepIdx + 1) (prior ++ [r]) rest

/-- Run a whole chain of steps in declared order. -/
def runChain (stats : CharacterStats) (vars : String → Option Int)
    (valuesOf : Nat → String → Option Int) (ids : Nat → String)
    (steps : List RollStep) : List StepResult :=
  runChainAux stats vars valuesOf ids 0 0 [] steps

/-! ## Specification-side definitions

These definitions formalize the vocabulary of the specification text and
are compared against the source-translated functions above. -/

/-- Spec-side shape of a valid simple formula string `NdS+M` (count and
signed modifier optional, sign may also be minus): the
lowercased character list decomposes into an optional digit run, the
letter `d`, a nonempty digit run, and an optional signed nonempty digit
run, with the stated numeric reading. -/
def SimpleShape (s : String) (cnt : Option Nat) (sides : Nat) (mo : Option Int) : Prop :=
  ∃ ds1 ds2 rest,
    s.data.map Char.toLower = ds1 ++ 'd' :: ds2 ++ rest ∧
    ds1.all Char.isDigit ∧ ds2.all Char.isDigit ∧ ds2 ≠ [] ∧
    cnt = (if ds1.isEmpty then none else some (digitsToNat ds1)) ∧
    sides = digitsToNat ds2 ∧
    ((rest = [] ∧ mo = none) ∨
      ∃ c ds3, (c = '+' ∨ c = '-') ∧ rest = c :: ds3 ∧
        ds3.all Char.isDigit ∧ ds3 ≠ [] ∧
        mo = some ((if c = '-' then -1 else 1) * (digitsToNat ds3 : Int)))

/-- Spec-side notion of a valid bare integer string: an optional sign
followed by one or more digits and nothing else. -/
def isBareIntString (s : String) : Bool :=
  let cs :=
    match s.data with
    | '+' :: r => r
    | '-' :: r => r
    | r => r
  !cs.isEmpty && cs.all Char.isDigit

/-- Spec-side removal of up to `n` occurrences of `x` from a list,
scanning left to right. -/
def removeUpTo (n : Nat) (x : Nat) : List Nat → List Nat
  | [] => []
  | a :: rest =>
    if a = x ∧ 0 < n then removeUpTo (n - 1) x rest
    else a :: removeUpTo n x rest

/-- Spec-side inclusion predicate for the grand total: not skipped and
include-in-total flag set. -/
def IncludedSpec (r : StepResult) : Prop :=
  r.skipped = false ∧ r.addToSum = some true

/-- A step result with its identity field erased, for comparing resolver
outputs up to the random unique id. -/
def sansId (r : StepResult) : StepResult :=
  { r with uniqueId := "" }

/-! ## General lemmas about the JS primitives -/

theorem jsAdd_none_left (x : Option Int) : jsAdd none x = none := by
  cases x <;> rfl

theorem jsAdd_none_right (x : Option Int) : jsAdd x none = none := by
  cases x <;> rfl

theorem foldl_jsAdd_start_none (l : List (Option Int)) : l.foldl jsAdd none = none := by
  induction l with
  | nil => rfl
  | cons x xs ih => simpa [jsAdd_none_left] using ih

theorem foldl_jsAdd_all_some (l : List (Option Int)) (h : ∀ x ∈ l, x ≠ none) (a : Int) :
    l.foldl jsAdd (some a) = some (a + (l.map (fun x => x.getD 0)).sum) := by
  induction l generalizing a with
  | nil => simp
  | cons x xs ih =>
    obtain ⟨v, rfl⟩ : ∃ v, x = some v := by
      cases x with
      | none => exact absurd rfl (h none (by simp))
      | some v => exact ⟨v, rfl⟩
    have := ih (fun y hy => h y (List.mem_cons_of_mem _ hy)) (a + v)
    simpa [jsAdd, add_assoc] using this

theorem foldl_jsAdd_has_none (l : List (Option Int)) (h : ∃ x ∈ l, x = none)
    (init : Option Int) : l.foldl jsAdd init = none := by
  induction l generalizing init with
  | nil => simp at h
  | cons x xs ih =>
    rcases h with ⟨y, hy, hnone⟩
    rcases List.mem_cons.mp hy with h1 | h1
    · subst h1
      subst hnone
      simpa [jsAdd_none_right] using foldl_jsAdd_start_none xs
    · exact ih ⟨y, h1, hnone⟩ _

theorem jsTruthyB_eq_getD (b : Option Bool) : jsTruthyB b = b.getD false := by
  cases b <;> rfl

theorem foldl_add_sides (cfg : List PendingDie) (a : Int) :
    cfg.foldl (fun acc d => acc + (d.sides : Int)) a
      = a + (cfg.map (fun d => (d.sides : Int))).sum := by
  induction cfg generalizing a with
  | nil => simp
  | cons d ds ih => simp [ih, add_assoc]

/-! ## C9: determinism of the step resolver -/

/-- C9: the step resolver is deterministic up to the result-identity
field: for a fixed input tuple (step, dieValues, diceConfig,
totalModifier, displayFormula, forceCrit), two invocations produce
results identical in every field except the randomly generated
`uniqueId`. -/
theorem resolve_deterministic_up_to_id (uid₁ uid₂ : String) (step : RollStep)
    (dv : String → Option Int) (cfg : List PendingDie) (tmod : Int) (dsp : String)
    (fc : Bool) :
    sansId (resolveStepResult uid₁ step dv cfg tmod dsp fc)
      = sansId (resolveStepResult uid₂ step dv cfg tmod dsp fc) := by
  unfold resolveStepResult sansId
  by_cases h : step.type = StepType.daggerheart <;> simp [h]

/-! ## C2: standard-step critical-hit math -/

/-- C2: for a standard step, `wasCrit` holds exactly when the `forceCrit`
argument is true or the step crit flag is set; a crit total is the sum of
the dice maxima plus the rolled sum plus the modifier, a non-crit total
is the rolled sum plus the modifier. -/
theorem standard_crit_math (uid : String) (step : RollStep) (dv : String → Option Int)
    (cfg : List PendingDie) (tmod : Int) (dsp : String) (fc : Bool)
    (hstd : step.type = StepType.standard)
    (hvals : ∀ d ∈ cfg, dv d.id ≠ none) :
    (resolveStepResult uid step dv cfg tmod dsp fc).wasCrit
      = (fc || step.isCrit.getD false) ∧
    ((resolveStepResult uid step dv cfg tmod dsp fc).wasCrit = true →
      (resolveStepResult uid step dv cfg tmod dsp fc).total
        = some ((cfg.map (fun d => (d.sides : Int))).sum
            + (cfg.map (fun d => (dv d.id).getD 0)).sum + tmod)) ∧
    ((resolveStepResult uid step dv cfg tmod dsp fc).wasCrit = false →
      (resolveStepResult uid step dv cfg tmod dsp fc).total
        = some ((cfg.map (fun d => (dv d.id).getD 0)).sum + tmod)) := by
  have hne : step.type ≠ StepType.daggerheart := by
    rw [hstd]; intro hcontra; cases hcontra
  have hsum : (cfg.map (fun d => dv d.id)).foldl jsAdd (some 0)
      = some (0 + (cfg.map (fun d => (dv d.id).getD 0)).sum) := by
    have := foldl_jsAdd_all_some (cfg.map (fun d => dv d.id)) (by
      intro x hx
      rcases List.mem_map.mp hx with ⟨d, hd, rfl⟩
      exact hvals d hd) 0
    rwa [List.map_map] at this
  refine ⟨by simp [resolveStepResult, hne, jsTruthyB_eq_getD], ?_, ?_⟩
  · intro hcrit
    simp only [resolveStepResult, hne, if_false] at hcrit ⊢
    by_cases hlen : 0 < cfg.length
    · simp only [hcrit, hlen, decide_True, Bool.true_and, if_true, hsum,
        foldl_add_sides, jsAdd]
      simp only [Option.some.injEq]
      ring
    · have hnil : cfg = [] := List.length_eq_zero.mp (Nat.eq_zero_of_not_pos hlen)
      subst hnil
      simp [jsAdd]
  · intro hncrit
    simp only [resolveStepResult, hne, if_false] at hncrit ⊢
    simp [hncrit, hsum, jsAdd, add_comm]

/-- C2 witness: a one-die d20 step rolled 20 with `forceCrit` and
modifier +5 totals 45. -/
theorem standard_crit_math_witness :
    (resolveStepResult "u"
      ⟨"s", "L", StepType.standard, "1d20", none, "none", none, some true, none⟩
      (fun i => if i = "a" then some 20 else none)
      [⟨"a", 20, DieType.standard⟩] 5 "1d20+5" true).total = some 45 := by
  have h := (standard_crit_math "u"
      ⟨"s", "L", StepType.standard, "1d20", none, "none", none, some true, none⟩
      (fun i => if i = "a" then some 20 else none)
      [⟨"a", 20, DieType.standard⟩] 5 "1d20+5" true rfl
      (by decide)).2.1 (by decide)
  rw [h]
  decide

/-! ## C1: duality-step resolution -/

/-- C1 counterexample: in a duality step whose configuration carries an
extra standard d4 that rolled 4 (hope 5, fear 3, modifier 0), the total
is 5 + 3 = 8; the extra die is not summed in, refuting the claim that
extra non-role dice are summed into the total. -/
theorem duality_extra_dice_cex :
    (resolveStepResult "u"
        ⟨"s", "L", StepType.daggerheart, "d4", none, "none", none, some true, none⟩
        (fun i => if i = "h" then some 5 else if i = "f" then some 3
          else if i = "x" then some 4 else none)
        [⟨"h", 12, DieType.hope⟩, ⟨"f", 12, DieType.fear⟩, ⟨"x", 4, DieType.standard⟩]
        0 "d4" false).total = some 8 ∧
    (resolveStepResult "u"
        ⟨"s", "L", StepType.daggerheart, "d4", none, "none", none, some true, none⟩
        (fun i => if i = "h" then some 5 else if i = "f" then some 3
          else if i = "x" then some 4 else none)
        [⟨"h", 12, DieType.hope⟩, ⟨"f", 12, DieType.fear⟩, ⟨"x", 4, DieType.standard⟩]
        0 "d4" false).total ≠ some (5 + 3 + 0 + 4) := by
  decide

/-- C1 amended: for a duality step whose hope and fear dice are found in
the configuration with rolled values `h` and `f`, the outcome is crit
when `h = f`, hope when `h ≠ f ∧ h ≥ f`, fear otherwise; the total is
`h + f + totalModifier`; `wasCrit` holds exactly for crit; and any extra
standard-role dice are ignored entirely: the rolls are exactly
`[h, f]` and the result does not depend on any other die value. -/
theorem duality_resolution (uid : String) (step : RollStep) (dv : String → Option Int)
    (cfg : List PendingDie) (tmod : Int) (dsp : String) (fc : Bool)
    (hdh : step.type = StepType.daggerheart)
    (dhD dfD : PendingDie) (h f : Int)
    (hhd : cfg.find? (fun d => d.type == DieType.hope) = some dhD)
    (hfd : cfg.find? (fun d => d.type == DieType.fear) = some dfD)
    (hhv : dv dhD.id = some h) (hfv : dv dfD.id = some f) :
    (resolveStepResult uid step dv cfg tmod dsp fc).dhOutcome
      = some (if h = f then DhOutcome.crit
          else if f ≤ h then DhOutcome.hope else DhOutcome.fear) ∧
    (resolveStepResult uid step dv cfg tmod dsp fc).total = some (h + f + tmod) ∧
    (resolveStepResult uid step dv cfg tmod dsp fc).wasCrit = decide (h = f) ∧
    (resolveStepResult uid step dv cfg tmod dsp fc).rolls = [some h, some f] ∧
    ∀ dv2 : String → Option Int, dv2 dhD.id = some h → dv2 dfD.id = some f →
      resolveStepResult uid step dv2 cfg tmod dsp fc
        = resolveStepResult uid step dv cfg tmod dsp fc := by
  refine ⟨?_, ?_, ?_, ?_, ?_⟩
  · simp only [resolveStepResult, hdh, if_true, hhd, hfd, hhv, hfv]
    by_cases hef : h = f
    · simp [hef, jsEqNum]
    · by_cases hge : f ≤ h <;> simp [hef, hge, jsEqNum, jsGeNum]
  · simp [resolveStepResult, hdh, hhd, hfd, hhv, hfv, jsAdd]
  · simp only [resolveStepResult, hdh, if_true, hhd, hfd, hhv, hfv]
    by_cases hef : h = f
    · simp [hef, jsEqNum]
    · by_cases hge : f ≤ h <;> simp [hef, hge, jsEqNum, jsGeNum]
  · simp [resolveStepResult, hdh, hhd, hfd, hhv, hfv]
  · intro dv2 h2 h3
    simp only [resolveStepResult, hdh, if_true, hhd, hfd, hhv, hfv, h2, h3]

/-- C1 amended witness: hope 10, fear 3, one extra d4 in the
configuration, modifier 0: outcome hope, total 13. -/
theorem duality_resolution_witness :
    (resolveStepResult "u"
        ⟨"s", "L", StepType.daggerheart, "d4", none, "none", none, some true, none⟩
        (fun i => if i = "h" then some 10 else if i = "f" then some 3
          else if i = "x" then some 2 else none)
        [⟨"h", 12, DieType.hope⟩, ⟨"f", 12, DieType.fear⟩, ⟨"x", 4, DieType.standard⟩]
        0 "d4" false).dhOutcome = some DhOutcome.hope ∧
    (resolveStepResult "u"
        ⟨"s", "L", StepType.daggerheart, "d4", none, "none", none, some true, none⟩
        (fun i => if i = "h" then some 10 else if i = "f" then some 3
          else if i = "x" then some 2 else none)
        [⟨"h", 12, DieType.hope⟩, ⟨"f", 12, DieType.fear⟩, ⟨"x", 4, DieType.standard⟩]
        0 "d4" false).total = some 13 := by
  have hres := duality_resolution "u"
      ⟨"s", "L", StepType.daggerheart, "d4", none, "none", none, some true, none⟩
      (fun i => if i = "h" then some 10 else if i = "f" then some 3
        else if i = "x" then some 2 else none)
      [⟨"h", 12, DieType.hope⟩, ⟨"f", 12, DieType.fear⟩, ⟨"x", 4, DieType.standard⟩]
      0 "d4" false rfl ⟨"h", 12, DieType.hope⟩ ⟨"f", 12, DieType.fear⟩ 10 3
      (by decide) (by decide) (by decide) (by decide)
  exact ⟨by rw [hres.1]; decide, by rw [hres.2.1]; decide⟩

/-! ## C3: missing die values -/

/-- C3 counterexample: a standard one-die step resolved against an empty
value map yields a `NaN` total (`none`) and an `undefined` roll entry,
not the numeric zero-contribution result the claim describes. -/
theorem missing_value_cex :
    (resolveStepResult "u"
        ⟨"s", "L", StepType.standard, "1d6", none, "none", none, some true, none⟩
        (fun _ => none) [⟨"a", 6, DieType.standard⟩] 0 "1d6" false).total = none ∧
    (resolveStepResult "u"
        ⟨"s", "L", StepType.standard, "1d6", none, "none", none, some true, none⟩
        (fun _ => none) [⟨"a", 6, DieType.standard⟩] 0 "1d6" false).total ≠ some 0 ∧
    (resolveStepResult "u"
        ⟨"s", "L", StepType.standard, "1d6", none, "none", none, some true, none⟩
        (fun _ => none) [⟨"a", 6, DieType.standard⟩] 0 "1d6" false).rolls ≠ [some 0] := by
  decide

/-- C3 amended: the resolver is a total function and never raises, but
only a die request that is absent from the configuration contributes 0;
a configured die whose value is missing from the map propagates the
non-numeric JS value instead. Concretely: a standard step total is
numeric when every configured die has a value and `NaN` (`none`) when
any is missing; a duality step with neither hope nor fear die in the
configuration defaults both to 0 (total = modifier); a duality step whose
hope die has no value yields a `NaN` total. -/
theorem missing_values_behavior (uid : String) (step : RollStep) (dv : String → Option Int)
    (cfg : List PendingDie) (tmod : Int) (dsp : String) (fc : Bool) :
    (step.type = StepType.standard → (∀ d ∈ cfg, dv d.id ≠ none) →
      ∃ n, (resolveStepResult uid step dv cfg tmod dsp fc).total = some n) ∧
    (step.type = StepType.standard → (∃ d ∈ cfg, dv d.id = none) →
      (resolveStepResult uid step dv cfg tmod dsp fc).total = none) ∧
    (step.type = StepType.daggerheart →
      cfg.find? (fun d => d.type == DieType.hope) = none →
      cfg.find? (fun d => d.type == DieType.fear) = none →
      (resolveStepResult uid step dv cfg tmod dsp fc).dhHope = some 0 ∧
      (resolveStepResult uid step dv cfg tmod dsp fc).dhFear = some 0 ∧
      (resolveStepResult uid step dv cfg tmod dsp fc).total = some tmod) ∧
    (step.type = StepType.daggerheart →
      ∀ dhD, cfg.find? (fun d => d.type == DieType.hope) = some dhD →
        dv dhD.id = none →
        (resolveStepResult uid step dv cfg tmod dsp fc).total = none) := by
  refine ⟨?_, ?_, ?_, ?_⟩
  · intro hstd hvals
    have hne : step.type ≠ StepType.daggerheart := by
      rw [hstd]; intro hcontra; cases hcontra
    have hsum : (cfg.map (fun d => dv d.id)).foldl jsAdd (some 0)
        = some (0 + (cfg.map (fun d => (dv d.id).getD 0)).sum) := by
      have := foldl_jsAdd_all_some (cfg.map (fun d => dv d.id)) (by
        intro x hx
        rcases List.mem_map.mp hx with ⟨d, hd, rfl⟩
        exact hvals d hd) 0
      rwa [List.map_map] at this
    simp only [resolveStepResult, hne, if_false, hsum]
    split <;> exact ⟨_, rfl⟩
  · intro hstd hmiss
    have hne : step.type ≠ StepType.daggerheart := by
      rw [hstd]; intro hcontra; cases hcontra
    rcases hmiss with ⟨d, hd, hnone⟩
    have hsum : (cfg.map (fun d => dv d.id)).foldl jsAdd (some 0) = none :=
      foldl_jsAdd_has_none _ ⟨dv d.id, List.mem_map.mpr ⟨d, hd, rfl⟩, hnone⟩ _
    simp only [resolveStepResult, hne, if_false, hsum]
    split <;> simp [jsAdd_none_right, jsAdd_none_left]
  · intro hdh hhn hfn
    simp [resolveStepResult, hdh, hhn, hfn, jsEqNum, jsAdd]
  · intro hdh dhD hhd hnone
    simp only [resolveStepResult, hdh, if_true, hhd, hnone]
    cases hfe : cfg.find? (fun d => d.type == DieType.fear) <;>
      simp [jsAdd_none_left, jsAdd_none_right]

/-- C3 amended witness: the standard one-die step with an empty value map
has a `NaN` total, and a duality step with an empty dice configuration
and modifier 7 totals 7 with both role values defaulted to 0. -/
theorem missing_values_behavior_witness :
    (resolveStepResult "u"
        ⟨"s", "L", StepType.standard, "1d6", none, "none", none, some true, none⟩
        (fun _ => none) [⟨"a", 6, DieType.standard⟩] 0 "1d6" false).total = none ∧
    (resolveStepResult "u"
        ⟨"t", "L", StepType.daggerheart, "", none, "none", none, some true, none⟩
        (fun _ => none) [] 7 "" false).total = some 7 := by
  refine ⟨?_, ?_⟩
  · exact (missing_values_behavior "u"
      ⟨"s", "L", StepType.standard, "1d6", none, "none", none, some true, none⟩
      (fun _ => none) [⟨"a", 6, DieType.standard⟩] 0 "1d6" false).2.1 rfl
      ⟨⟨"a", 6, DieType.standard⟩, by decide, rfl⟩
  · exact ((missing_values_behavior "u"
      ⟨"t", "L", StepType.daggerheart, "", none, "none", none, some true, none⟩
      (fun _ => none) [] 7 "" false).2.2.1 rfl rfl rfl).2.2

/-! ## C5: duality dice requirement planning -/

theorem dualityExtraDice_all_standard (ids : Nat → String) :
    ∀ (groups : List DiceGroup) (k c : Nat),
      ∀ d ∈ (dualityExtraDice ids k c groups).1, d.type = DieType.standard := by
  intro groups
  induction groups with
  | nil => intro k c d hd; simp [dualityExtraDice] at hd
  | cons g rest ih =>
    intro k c d hd
    by_cases hskip : g.sides = 12 && c < 2
    · rw [dualityExtraDice, if_pos hskip] at hd
      exact ih k (c + 1) d hd
    · rw [dualityExtraDice, if_neg hskip] at hd
      rcases List.mem_cons.mp hd with h1 | h1
      · rw [h1]
      · exact ih (k + 1) c d h1

theorem dualityExtraDice_spec (ids : Nat → String) :
    ∀ (groups : List DiceGroup) (k c : Nat),
      ((dualityExtraDice ids k c groups).1.map (fun d => (d.sides, d.type)))
        = (removeUpTo (2 - c) 12 (groups.map DiceGroup.sides)).map
            (fun s => (s, DieType.standard)) := by
  intro groups
  induction groups with
  | nil => intro k c; simp [dualityExtraDice, removeUpTo]
  | cons g rest ih =>
    intro k c
    by_cases hskip : g.sides = 12 ∧ c < 2
    · have hb : (g.sides = 12 && decide (c < 2)) = true := by
        simp [hskip.1, hskip.2]
      have hn : (g.sides = 12 ∧ 0 < 2 - c) := ⟨hskip.1, by omega⟩
      have harith : 2 - c - 1 = 2 - (c + 1) := by omega
      rw [dualityExtraDice, if_pos hb, List.map_cons]
      simp only [removeUpTo]
      rw [if_pos hn, harith]
      exact ih k (c + 1)
    · have hb : ¬(g.sides = 12 && decide (c < 2)) = true := by
        simp only [Bool.and_eq_true, decide_eq_true_eq]
        intro hcontra
        exact hskip ⟨by simpa using hcontra.1, hcontra.2⟩
      have hn : ¬(g.sides = 12 ∧ 0 < 2 - c) := by
        intro hcontra
        exact hskip ⟨hcontra.1, by omega⟩
      rw [dualityExtraDice, if_neg hb, List.map_cons]
      simp only [removeUpTo]
      rw [if_neg hn]
      simp only [List.map_cons]
      rw [ih (k + 1) c]

/-- C5: for every duality step, regardless of its formula, the planner
emits exactly one hope d12 and one fear d12 first, absorbs up to the
first two d12 groups parsed from the formula, emits every remaining
parsed die as a standard-role die in order, and returns the advanced
parser flat modifier as the base modifier. -/
theorem duality_dice_plan (ids : Nat → String) (k : Nat) (step : RollStep)
    (hdh : step.type = StepType.daggerheart) :
    ((getStepDiceConfig ids k step).1.dice.map (fun d => (d.sides, d.type)))
      = (12, DieType.hope) :: (12, DieType.fear)
        :: (removeUpTo 2 12 ((parseFormulaAdvanced step.formula).diceGroups.map
            DiceGroup.sides)).map (fun s => (s, DieType.standard)) ∧
    (getStepDiceConfig ids k step).1.baseModifier
      = (parseFormulaAdvanced step.formula).modifier ∧
    ((getStepDiceConfig ids k step).1.dice.filter
        (fun d => d.type == DieType.hope)).length = 1 ∧
    ((getStepDiceConfig ids k step).1.dice.filter
        (fun d => d.type == DieType.fear)).length = 1 := by
  have hextras := dualityExtraDice_spec ids (parseFormulaAdvanced step.formula).diceGroups
    (k + 2) 0
  have hstd := dualityExtraDice_all_standard ids (parseFormulaAdvanced step.formula).diceGroups
    (k + 2) 0
  refine ⟨?_, ?_, ?_, ?_⟩
  · simp only [getStepDiceConfig, hdh, if_true, List.map_cons]
    exact congrArg₂ List.cons rfl (congrArg₂ List.cons rfl hextras)
  · simp [getStepDiceConfig, hdh]
  · simp only [getStepDiceConfig, hdh, if_true, List.filter_cons]
    have hnone : ((dualityExtraDice ids (k + 2) 0
        (parseFormulaAdvanced step.formula).diceGroups).1.filter
          (fun d => d.type == DieType.hope)) = [] := by
      rw [List.filter_eq_nil_iff]
      intro d hd
      simp [hstd d hd]
    simp [hnone]
  · simp only [getStepDiceConfig, hdh, if_true, List.filter_cons]
    have hnone : ((dualityExtraDice ids (k + 2) 0
        (parseFormulaAdvanced step.formula).diceGroups).1.filter
          (fun d => d.type == DieType.fear)) = [] := by
      rw [List.filter_eq_nil_iff]
      intro d hd
      simp [hstd d hd]
    simp [hnone]

/-- C5 witness: a duality step with formula `2d12+d6+3` plans exactly the
hope d12, the fear d12 and one extra standard d6 (the two d12 terms are
absorbed), with base modifier 3. -/
theorem duality_dice_plan_witness :
    ((getStepDiceConfig (fun n => toString n) 0
        ⟨"s", "L", StepType.daggerheart, "2d12+d6+3", none, "none", none, some true,
          none⟩).1.dice.map (fun d => (d.sides, d.type)))
      = [(12, DieType.hope), (12, DieType.fear), (6, DieType.standard)] ∧
    (getStepDiceConfig (fun n => toString n) 0
        ⟨"s", "L", StepType.daggerheart, "2d12+d6+3", none, "none", none, some true,
          none⟩).1.baseModifier = 3 := by
  have hres := duality_dice_plan (fun n => toString n) 0
    ⟨"s", "L", StepType.daggerheart, "2d12+d6+3", none, "none", none, some true, none⟩ rfl
  exact ⟨by rw [hres.1]; decide, by rw [hres.2.1]; decide⟩

/-! ## C6: skipped or absent dependencies -/

theorem checkCondition_absent_or_skipped (step : RollStep) (prior : List StepResult)
    (vars : String → Option Int) (c : RollCondition) (hc : step.condition = some c)
    (hsrc : c.checkSource.getD CheckSource.step_result = CheckSource.step_result)
    (hdep : findDependency prior c = none ∨
      ∃ p, findDependency prior c = some p ∧ p.skipped = true) :
    checkCondition step prior vars = false := by
  simp only [checkCondition, hc, hsrc]
  rcases hdep with hnone | ⟨p, hp, hskip⟩
  · rw [hnone]
  · rw [hp]
    simp [hskip]

theorem runChainAux_length (stats : CharacterStats) (vars : String → Option Int)
    (valuesOf : Nat → String → Option Int) (ids : Nat → String) :
    ∀ (steps : List RollStep) (prior : List StepResult) (k idx : Nat),
      (runChainAux stats vars valuesOf ids k idx prior steps).length = steps.length := by
  intro steps
  induction steps with
  | nil => intro prior k idx; rfl
  | cons s rest ih =>
    intro prior k idx
    simp only [runChainAux]
    by_cases hrun : checkCondition s prior vars
    · rw [if_pos hrun]
      simp [ih]
    · rw [if_neg hrun]
      simp [ih]

theorem runChainAux_skipped (stats : CharacterStats) (vars : String → Option Int)
    (valuesOf : Nat → String → Option Int) (ids : Nat → String) :
    ∀ (steps : List RollStep) (prior : List StepResult) (k idx i : Nat) (st : RollStep)
      (c : RollCondition),
      steps[i]? = some st → st.condition = some c →
      c.checkSource.getD CheckSource.step_result = CheckSource.step_result →
      (findDependency
          (prior ++ (runChainAux stats vars valuesOf ids k idx prior steps).take i) c = none ∨
        ∃ p, findDependency
            (prior ++ (runChainAux stats vars valuesOf ids k idx prior steps).take i) c
          = some p ∧ p.skipped = true) →
      ∃ r, (runChainAux stats vars valuesOf ids k idx prior steps)[i]? = some r ∧
        r.skipped = true := by
  intro steps
  induction steps with
  | nil => intro prior k idx i st c hst; simp at hst
  | cons s rest ih =>
    intro prior k idx i st c hst hcond hsrc hdep
    cases i with
    | zero =>
      have hs : s = st := by simpa using hst
      subst hs
      have hdep0 : findDependency prior c = none ∨
          ∃ p, findDependency prior c = some p ∧ p.skipped = true := by
        simpa using hdep
      have hfalse : checkCondition s prior vars = false :=
        checkCondition_absent_or_skipped s prior vars c hcond hsrc hdep0
      refine ⟨createSkippedResult (ids k) s, ?_, rfl⟩
      simp [runChainAux, hfalse]
    | succ j =>
      simp only [runChainAux] at hdep ⊢
      by_cases hrun : checkCondition s prior vars
      · rw [if_pos hrun] at hdep ⊢
        simp only [List.getElem?_cons_succ]
        refine ih _ _ _ j st c (by simpa using hst) hcond hsrc ?_
        simp only [List.take_succ_cons] at hdep
        rwa [List.append_cons] at hdep
      · rw [if_neg hrun] at hdep ⊢
        simp only [List.getElem?_cons_succ]
        refine ih _ _ _ j st c (by simpa using hst) hcond hsrc ?_
        simp only [List.take_succ_cons] at hdep
        rwa [List.append_cons] at hdep

/-- C6: for a step gated via the step-result source, the condition is
false whenever the referenced step result is absent from the prior
results or marked skipped; consequently, in a chain run, a step whose
dependency at resolution time is absent or skipped is itself resolved as
skipped, which propagates skip status transitively down the chain. -/
theorem skipped_dependency_gates_false :
    (∀ (step : RollStep) (prior : List StepResult) (vars : String → Option Int)
        (c : RollCondition), step.condition = some c →
      c.checkSource.getD CheckSource.step_result = CheckSource.step_result →
      (findDependency prior c = none ∨
        ∃ p, findDependency prior c = some p ∧ p.skipped = true) →
      checkCondition step prior vars = false) ∧
    (∀ (stats : CharacterStats) (vars : String → Option Int)
        (valuesOf : Nat → String → Option Int) (ids : Nat → String)
        (steps : List RollStep) (i : Nat) (st : RollStep) (c : RollCondition),
      steps[i]? = some st → st.condition = some c →
      c.checkSource.getD CheckSource.step_result = CheckSource.step_result →
      (findDependency ((runChain stats vars valuesOf ids steps).take i) c = none ∨
        ∃ p, findDependency ((runChain stats vars valuesOf ids steps).take i) c
          = some p ∧ p.skipped = true) →
      ∃ r, (runChain stats vars valuesOf ids steps)[i]? = some r ∧ r.skipped = true) := by
  refine ⟨checkCondition_absent_or_skipped, ?_⟩
  intro stats vars valuesOf ids steps i st c hst hcond hsrc hdep
  exact runChainAux_skipped stats vars valuesOf ids steps [] 0 0 i st c hst hcond hsrc
    (by simpa [runChain] using hdep)

/-- C6 witness: in the chain [stepA gated on a nonexistent step id,
stepB gated on stepA > 0], stepA is skipped and stepB is skipped
transitively; and the evaluator returns false for a condition whose
referenced result is marked skipped. -/
theorem skipped_dependency_gates_false_witness :
    checkCondition
        ⟨"b", "B", StepType.standard, "1d6", none, "none",
          some ⟨none, some "a", none, ConditionOperator.gt, CompareTarget.value, some 0, none⟩,
          some true, none⟩
        [⟨"a", "u0", "A", some 0, [], "1d6", StepType.standard, "none", true, some true, false,
          none, none, none⟩]
        (fun _ => none) = false ∧
    (∃ r, (runChain ⟨fun _ => none, fun _ => none, fun _ => none, []⟩ (fun _ => none)
        (fun _ _ => some 3) (fun n => toString n)
        [⟨"a", "A", StepType.standard, "1d6", none, "none",
            some ⟨none, some "zzz", none, ConditionOperator.gt, CompareTarget.value, some 0,
              none⟩, some true, none⟩,
          ⟨"b", "B", StepType.standard, "1d6", none, "none",
            some ⟨none, some "a", none, ConditionOperator.gt, CompareTarget.value, some 0,
              none⟩, some true, none⟩])[1]? = some r ∧ r.skipped = true) := by
  constructor
  · exact skipped_dependency_gates_false.1 _ _ _ _ rfl rfl (Or.inr ⟨_, rfl, rfl⟩)
  · exact skipped_dependency_gates_false.2 _ _ _ _ _ 1 _ _ rfl rfl rfl
      (Or.inr ⟨_, rfl, rfl⟩)

/-! ## C7: rule-system outcome operators -/

/-- C7: the `is_hope`, `is_fear` and `is_crit` operators ignore the
threshold entirely (the condition value, threshold variable id and
compare target do not affect the outcome); against a variable source they
always return false; against the step-result source the evaluator
returns true exactly when the first-found, non-skipped referenced result
has duality outcome hope-or-crit, fear, or crit respectively. -/
theorem dh_operators (step : RollStep) (prior : List StepResult)
    (vars : String → Option Int) (c : RollCondition)
    (hc : step.condition = some c) (hop : isDhOp c.operator = true) :
    (∀ (v : Option Int) (vid : Option String) (ct : CompareTarget),
      checkCondition
          { step with condition := some { c with
              value := v
              variableId := vid
              compareTarget := ct } } prior vars
        = checkCondition step prior vars) ∧
    (c.checkSource = some CheckSource.variable →
      checkCondition step prior vars = false) ∧
    (c.checkSource.getD CheckSource.step_result = CheckSource.step_result →
      checkCondition step prior vars =
        (match findDependency prior c with
          | some p => !p.skipped &&
              (match c.operator with
                | ConditionOperator.is_hope =>
                    p.dhOutcome == some DhOutcome.hope || p.dhOutcome == some DhOutcome.crit
                | ConditionOperator.is_fear => p.dhOutcome == some DhOutcome.fear
                | ConditionOperator.is_crit => p.dhOutcome == some DhOutcome.crit
                | _ => false)
          | none => false)) := by
  obtain ⟨cs, dep, cvid, op, ct0, val, vid0⟩ := c
  dsimp only at hop
  refine ⟨?_, ?_, ?_⟩
  · intro v vid ct
    cases op <;> first
      | exact absurd hop (by decide)
      | (simp only [checkCondition, hc]; try rfl)
  · intro hvar
    dsimp only at hvar
    subst hvar
    cases cvid with
    | none =>
      cases op <;> first
        | exact absurd hop (by decide)
        | (simp only [checkCondition, hc]; try rfl)
    | some s =>
      cases hs : s.isEmpty <;>
        cases op <;> first
          | exact absurd hop (by decide)
          | (simp only [checkCondition, hc, hs]; try rfl)
  · intro hsrc
    dsimp only at hsrc
    cases hfd : findDependency prior
        (⟨cs, dep, cvid, op, ct0, val, vid0⟩ : RollCondition) with
    | none =>
      cases op <;> first
        | exact absurd hop (by decide)
        | (simp only [checkCondition, hc, hsrc, hfd]; try rfl)
    | some p =>
      cases hskip : p.skipped <;>
        cases op <;> first
          | exact absurd hop (by decide)
          | (simp only [checkCondition, hc, hsrc, hfd, hskip]; try rfl)

/-- C7 witness: `is_hope` with threshold 99 against a non-skipped crit
result is true (threshold ignored, crit matches hope); `is_crit` against
a variable source is false. -/
theorem dh_operators_witness :
    checkCondition
        ⟨"b", "B", StepType.standard, "1d6", none, "none",
          some ⟨none, some "a", none, ConditionOperator.is_hope, CompareTarget.value,
            some 99, none⟩, some true, none⟩
        [⟨"a", "u0", "A", some 11, [some 4, some 4], "", StepType.daggerheart, "none", false,
          some true, true, some 4, some 4, some DhOutcome.crit⟩]
        (fun _ => none) = true ∧
    checkCondition
        ⟨"b", "B", StepType.standard, "1d6", none, "none",
          some ⟨some CheckSource.variable, none, some "x", ConditionOperator.is_crit,
            CompareTarget.value, some 0, none⟩, some true, none⟩
        [] (fun _ => some 5) = false := by
  constructor
  · have h1 := (dh_operators
      ⟨"b", "B", StepType.standard, "1d6", none, "none",
        some ⟨none, some "a", none, ConditionOperator.is_hope, CompareTarget.value,
          some 99, none⟩, some true, none⟩
      [⟨"a", "u0", "A", some 11, [some 4, some 4], "", StepType.daggerheart, "none", false,
        some true, true, some 4, some 4, some DhOutcome.crit⟩]
      (fun _ => none) _ rfl rfl).2.2 rfl
    rw [h1]
    decide
  · exact (dh_operators
      ⟨"b", "B", StepType.standard, "1d6", none, "none",
        some ⟨some CheckSource.variable, none, some "x", ConditionOperator.is_crit,
          CompareTarget.value, some 0, none⟩, some true, none⟩
      [] (fun _ => some 5) _ rfl rfl).2.1 rfl

/-! ## C8: grand total aggregation -/

theorem lookup_updateGroup_ne (t key : String) (tot : Option Int) (hne : key ≠ t) :
    ∀ g : List (String × Option Int),
      List.lookup t (updateGroup g key tot) = List.lookup t g := by
  intro g
  induction g with
  | nil =>
    have hbk : (t == key) = false := by
      simpa using Ne.symm hne
    simp [updateGroup, List.lookup, hbk]
  | cons kv rest ih =>
    obtain ⟨k, v⟩ := kv
    by_cases hk : k = key
    · have hkq : (t == key) = false := by
        simpa using Ne.symm hne
      simp [updateGroup, hk, List.lookup, hkq]
    · by_cases hkt : t = k
      · simp [updateGroup, hk, List.lookup, hkt]
      · have hbt : (t == k) = false := by simpa using hkt
        simp [updateGroup, hk, List.lookup, hbt, ih]

theorem lookup_updateGroup_eq (t : String) (tot : Option Int) :
    ∀ g : List (String × Option Int),
      List.lookup t (updateGroup g t tot)
        = some (jsAdd (some (((List.lookup t g).map (fun v => v.getD 0)).getD 0)) tot) := by
  intro g
  induction g with
  | nil => simp [updateGroup, List.lookup]
  | cons kv rest ih =>
    obtain ⟨k, v⟩ := kv
    by_cases hk : k = t
    · subst hk
      simp [updateGroup, List.lookup]
    · have hbt : (t == k) = false := by
        simp [beq_iff_eq]
        exact fun hcontra => hk hcontra.symm
      simp [updateGroup, hk, List.lookup, hbt, ih]

theorem lookup_groups_fold (t : String) :
    ∀ (l : List StepResult) (g : List (String × Option Int)),
      (∀ r ∈ l, r.total ≠ none) →
      List.lookup t (l.foldl (fun g r => updateGroup g (normTypeOf r) r.total) g)
        = if (l.filter (fun r => normTypeOf r = t)).isEmpty
          then List.lookup t g
          else some (some ((((List.lookup t g).map (fun v => v.getD 0)).getD 0)
            + (((l.filter (fun r => normTypeOf r = t)).map
                (fun r => r.total.getD 0)).sum))) := by
  intro l
  induction l with
  | nil => intro g hl; simp
  | cons r rest ih =>
    intro g hl
    have hr : r.total ≠ none := hl r (by simp)
    obtain ⟨n, hn⟩ : ∃ n, r.total = some n := by
      cases htot : r.total with
      | none => exact absurd htot hr
      | some n => exact ⟨n, rfl⟩
    have hrest : ∀ x ∈ rest, x.total ≠ none := fun x hx => hl x (by simp [hx])
    by_cases hkey : normTypeOf r = t
    · simp only [List.foldl_cons]
      rw [ih (updateGroup g (normTypeOf r) r.total) hrest]
      have hupd : List.lookup t (updateGroup g (normTypeOf r) r.total)
          = some (some ((((List.lookup t g).map (fun v => v.getD 0)).getD 0) + n)) := by
        rw [hkey, hn, lookup_updateGroup_eq]
        simp [jsAdd]
      by_cases hrestfil : (rest.filter (fun x => normTypeOf x = t)).isEmpty
      · have hrestnil : rest.filter (fun x => normTypeOf x = t) = [] := by
          simpa [List.isEmpty_iff] using hrestfil
        rw [if_pos hrestfil, hupd]
        simp [List.filter_cons, hkey, hrestnil, hn]
      · rw [if_neg hrestfil, hupd]
        simp [List.filter_cons, hkey, hn, add_assoc]
    · have hupd := lookup_updateGroup_ne t (normTypeOf r) r.total hkey g
      simp only [List.foldl_cons]
      rw [ih (updateGroup g (normTypeOf r) r.total) hrest, hupd]
      simp [List.filter_cons, hkey]

/-- C8: the grand total is the sum of `total` over exactly the results
that are neither skipped nor missing the include-in-total flag; the
per-category breakdown map contains exactly the categories of those
included results, each mapped to the sum of the included totals of that
category; and the included filter agrees with the spec predicate. -/
theorem grand_total_spec (rs : List StepResult)
    (h : ∀ r ∈ rs.filter includedB, r.total ≠ none) :
    (calculateGrandTotalFromResults rs).grandTotal
      = some (((rs.filter includedB).map (fun r => r.total.getD 0)).sum) ∧
    (∀ t : String,
      List.lookup t (groupsOf (rs.filter includedB))
        = if ((rs.filter includedB).filter (fun r => normTypeOf r = t)).isEmpty then none
          else some (some ((((rs.filter includedB).filter (fun r => normTypeOf r = t)).map
              (fun r => r.total.getD 0)).sum))) ∧
    (∀ r : StepResult, includedB r = true ↔ IncludedSpec r) := by
  refine ⟨?_, ?_, ?_⟩
  · have hfold : (rs.filter includedB).foldl (fun s r => jsAdd s r.total) (some 0)
        = ((rs.filter includedB).map (fun r => r.total)).foldl jsAdd (some 0) := by
      rw [List.foldl_map]
    have hall : ∀ x ∈ (rs.filter includedB).map (fun r => r.total), x ≠ none := by
      intro x hx
      rcases List.mem_map.mp hx with ⟨r, hr, rfl⟩
      exact h r hr
    simp only [calculateGrandTotalFromResults, hfold,
      foldl_jsAdd_all_some _ hall 0, List.map_map]
    rw [zero_add]
    rfl
  · intro t
    have hlook := lookup_groups_fold t (rs.filter includedB) [] h
    simp only [groupsOf]
    rw [hlook]
    simp [List.lookup]
  · intro r
    constructor
    · intro hb
      simp only [includedB, Bool.and_eq_true, Bool.not_eq_true'] at hb
      refine ⟨hb.1, ?_⟩
      have := hb.2
      cases hadd : r.addToSum with
      | none => rw [hadd] at this; simp [jsTruthyB] at this
      | some b =>
        rw [hadd] at this
        cases b with
        | false => simp [jsTruthyB] at this
        | true => rfl
    · intro hs
      simp [includedB, hs.1, hs.2, jsTruthyB]

/-- C8 witness: of four results (5 fire included; 7 cold skipped; 9 fire
flag unset; 3 typeless included) the grand total is 8, the fire category
sums to 5, typeless to 3, and cold is absent from the breakdown. -/
theorem grand_total_spec_witness :
    (calculateGrandTotalFromResults
        [⟨"a", "u1", "", some 5, [], "", StepType.standard, "fire", false, some true, false,
            none, none, none⟩,
          ⟨"b", "u2", "", some 7, [], "", StepType.standard, "cold", true, some true, false,
            none, none, none⟩,
          ⟨"c", "u3", "", some 9, [], "", StepType.standard, "fire", false, some false, false,
            none, none, none⟩,
          ⟨"e", "u4", "", some 3, [], "", StepType.standard, "none", false, some true, false,
            none, none, none⟩]).grandTotal = some 8 ∧
    List.lookup "fire" (groupsOf ([⟨"a", "u1", "", some 5, [], "", StepType.standard, "fire",
        false, some true, false, none, none, none⟩,
      ⟨"b", "u2", "", some 7, [], "", StepType.standard, "cold", true, some true, false,
        none, none, none⟩,
      ⟨"c", "u3", "", some 9, [], "", StepType.standard, "fire", false, some false, false,
        none, none, none⟩,
      ⟨"e", "u4", "", some 3, [], "", StepType.standard, "none", false, some true, false,
        none, none, none⟩].filter includedB)) = some (some 5) ∧
    List.lookup "cold" (groupsOf ([⟨"a", "u1", "", some 5, [], "", StepType.standard, "fire",
        false, some true, false, none, none, none⟩,
      ⟨"b", "u2", "", some 7, [], "", StepType.standard, "cold", true, some true, false,
        none, none, none⟩,
      ⟨"c", "u3", "", some 9, [], "", StepType.standard, "fire", false, some false, false,
        none, none, none⟩,
      ⟨"e", "u4", "", some 3, [], "", StepType.standard, "none", false, some true, false,
        none, none, none⟩].filter includedB)) = none := by
  have hres := grand_total_spec
    [⟨"a", "u1", "", some 5, [], "", StepType.standard, "fire", false, some true, false,
        none, none, none⟩,
      ⟨"b", "u2", "", some 7, [], "", StepType.standard, "cold", true, some true, false,
        none, none, none⟩,
      ⟨"c", "u3", "", some 9, [], "", StepType.standard, "fire", false, some false, false,
        none, none, none⟩,
      ⟨"e", "u4", "", some 3, [], "", StepType.standard, "none", false, some true, false,
        none, none, none⟩] (by decide)
  refine ⟨?_, ?_, ?_⟩
  · rw [hres.1]; decide
  · rw [hres.2.1 "fire"]; decide
  · rw [hres.2.1 "cold"]; decide

/-! ## Character and list scanning lemmas -/

theorem isDigit_ne {c : Char} (x : Char) (h : c.isDigit = true)
    (hx : x.isDigit = false) : c ≠ x := by
  intro hc
  subst hc
  rw [h] at hx
  cases hx

theorem toLower_of_isDigit {c : Char} (h : c.isDigit = true) : c.toLower = c := by
  simp only [Char.isDigit, Bool.and_eq_true, decide_eq_true_eq] at h
  unfold Char.toLower
  rw [if_neg]
  intro hcontra
  have h1 : c.val.toNat ≤ 57 := h.2
  have h2 : 65 ≤ c.toNat := hcontra.1
  simp [Char.toNat] at h2
  omega

theorem ws_false_of_isDigit {c : Char} (h : c.isDigit = true) :
    isJSWhitespace c = false := by
  cases hc : isJSWhitespace c with
  | false => rfl
  | true =>
    simp only [isJSWhitespace, Bool.or_eq_true, decide_eq_true_eq] at hc
    rcases hc with ((((((h1 | h1) | h1) | h1) | h1) | h1) | h1) <;>
      (subst h1; exact absurd h (by decide))

theorem all_takeWhile {α} (p : α → Bool) (l : List α) :
    (l.takeWhile p).all p = true := by
  induction l with
  | nil => rfl
  | cons x xs ih =>
    by_cases hx : p x
    · simp [List.takeWhile_cons, hx, ih]
    · simp [List.takeWhile_cons, hx]

theorem takeWhile_all_eq {α} {p : α → Bool} :
    ∀ {l : List α}, l.all p = true → l.takeWhile p = l := by
  intro l
  induction l with
  | nil => intro _; rfl
  | cons x xs ih =>
    intro h
    simp only [List.all_cons, Bool.and_eq_true] at h
    simp [List.takeWhile_cons, h.1, ih h.2]

theorem dropWhile_all_eq {α} {p : α → Bool} :
    ∀ {l : List α}, l.all p = true → l.dropWhile p = [] := by
  intro l
  induction l with
  | nil => intro _; rfl
  | cons x xs ih =>
    intro h
    simp only [List.all_cons, Bool.and_eq_true] at h
    simp [List.dropWhile_cons, h.1, ih h.2]

theorem takeWhile_append_sentinel {α} (p : α → Bool) (a : List α) (σ : α) (w : List α)
    (hσ : p σ = false) : ((a ++ σ :: w).takeWhile p) = a.takeWhile p := by
  induction a with
  | nil => simp [List.takeWhile_cons, hσ]
  | cons x xs ih =>
    by_cases hx : p x
    · simp [List.takeWhile_cons, hx, ih]
    · simp [List.takeWhile_cons, hx]

theorem dropWhile_append_sentinel {α} (p : α → Bool) (a : List α) (σ : α) (w : List α)
    (hσ : p σ = false) : ((a ++ σ :: w).dropWhile p) = a.dropWhile p ++ σ :: w := by
  induction a with
  | nil => simp [List.dropWhile_cons, hσ]
  | cons x xs ih =>
    by_cases hx : p x
    · simp [List.dropWhile_cons, hx, ih]
    · simp [List.dropWhile_cons, hx]

/-! ## C4: the simple parser against the spec shape -/

theorem simpleMatch_shape_plain (ds1 ds2 : List Char)
    (h1 : ds1.all Char.isDigit = true) (h2 : ds2.all Char.isDigit = true)
    (h2ne : ds2 ≠ []) :
    simpleMatch (ds1 ++ 'd' :: ds2)
      = some (if ds1.isEmpty then none else some (digitsToNat ds1), digitsToNat ds2,
          none) := by
  have hdd : Char.isDigit 'd' = false := by decide
  have hemp : ds2.isEmpty = false := by
    cases ds2 with
    | nil => exact absurd rfl h2ne
    | cons x xs => rfl
  unfold simpleMatch
  dsimp only
  rw [dropWhile_append_sentinel _ _ _ _ hdd, takeWhile_append_sentinel _ _ _ _ hdd,
    dropWhile_all_eq h1, takeWhile_all_eq h1, List.nil_append]
  dsimp only
  rw [if_pos rfl, takeWhile_all_eq h2, hemp, dropWhile_all_eq h2]
  try dsimp only
  rfl

theorem simpleMatch_shape_mod (ds1 ds2 ds3 : List Char) (c : Char)
    (hc : c = '+' ∨ c = '-')
    (h1 : ds1.all Char.isDigit = true) (h2 : ds2.all Char.isDigit = true)
    (h2ne : ds2 ≠ []) (h3 : ds3.all Char.isDigit = true) (h3ne : ds3 ≠ []) :
    simpleMatch (ds1 ++ 'd' :: ds2 ++ c :: ds3)
      = some (if ds1.isEmpty then none else some (digitsToNat ds1), digitsToNat ds2,
          some ((if c = '-' then -1 else 1) * (digitsToNat ds3 : Int))) := by
  have hdd : Char.isDigit 'd' = false := by decide
  have hcd : Char.isDigit c = false := by
    rcases hc with rfl | rfl <;> decide
  have hsign : (c = '+' || c = '-') = true := by
    rcases hc with rfl | rfl <;> decide
  have hemp2 : ds2.isEmpty = false := by
    cases ds2 with
    | nil => exact absurd rfl h2ne
    | cons x xs => rfl
  have hemp3 : ds3.isEmpty = false := by
    cases ds3 with
    | nil => exact absurd rfl h3ne
    | cons x xs => rfl
  unfold simpleMatch
  dsimp only
  rw [dropWhile_append_sentinel _ _ _ _ hcd, takeWhile_append_sentinel _ _ _ _ hcd,
    dropWhile_append_sentinel _ _ _ _ hdd, takeWhile_append_sentinel _ _ _ _ hdd,
    dropWhile_all_eq h1, takeWhile_all_eq h1, List.nil_append, List.cons_append]
  dsimp only
  rw [if_pos rfl]
  rw [takeWhile_append_sentinel _ _ _ _ hcd, takeWhile_all_eq h2, hemp2,
    dropWhile_append_sentinel _ _ _ _ hcd, dropWhile_all_eq h2, List.nil_append]
  try dsimp only
  rw [hsign]
  try dsimp only
  rw [takeWhile_all_eq h3, dropWhile_all_eq h3, hemp3]
  try dsimp only
  rfl

theorem simpleMatch_some_shape (s : String) (out : Option Nat × Nat × Option Int)
    (hm : simpleMatch (s.data.map Char.toLower) = some out) :
    SimpleShape s out.1 out.2.1 out.2.2 := by
  have hsplit : s.data.map Char.toLower
      = (s.data.map Char.toLower).takeWhile Char.isDigit
        ++ (s.data.map Char.toLower).dropWhile Char.isDigit :=
    (List.takeWhile_append_dropWhile Char.isDigit _).symm
  unfold simpleMatch at hm
  dsimp only at hm
  split at hm
  case _ c0 r2 heq =>
    by_cases hc0 : c0 = 'd'
    case neg => rw [if_neg hc0] at hm; cases hm
    case pos =>
      rw [if_pos hc0] at hm
      subst hc0
      by_cases hemp : (r2.takeWhile Char.isDigit).isEmpty
      · rw [if_pos hemp] at hm; cases hm
      · rw [if_neg hemp] at hm
        have h2ne : r2.takeWhile Char.isDigit ≠ [] := by
          intro hnil
          rw [hnil] at hemp
          exact hemp rfl
        have hr2split : r2 = r2.takeWhile Char.isDigit ++ r2.dropWhile Char.isDigit :=
          (List.takeWhile_append_dropWhile Char.isDigit r2).symm
        cases heq2 : r2.dropWhile Char.isDigit with
        | nil =>
          rw [heq2] at hm
          dsimp only at hm
          injection hm with hm
          rw [heq2, List.append_nil] at hr2split
          refine ⟨(s.data.map Char.toLower).takeWhile Char.isDigit,
            r2.takeWhile Char.isDigit, [], ?_, all_takeWhile _ _, all_takeWhile _ _,
            h2ne, ?_, ?_, Or.inl ⟨rfl, ?_⟩⟩
          · rw [List.append_nil]
            conv_lhs => rw [hsplit, heq]
            rw [← hr2split]
          · rw [← hm]
          · rw [← hm]
          · rw [← hm]
        | cons c r4 =>
          rw [heq2] at hm
          dsimp only at hm
          by_cases hsign : (c = '+' || c = '-') = true
          · rw [if_pos hsign] at hm
            by_cases hcond : ((r4.takeWhile Char.isDigit).isEmpty
                || !(r4.dropWhile Char.isDigit).isEmpty) = true
            · rw [if_pos hcond] at hm; cases hm
            · rw [if_neg hcond] at hm
              injection hm with hm
              simp only [Bool.or_eq_true, not_or, Bool.not_eq_true,
                Bool.not_eq_true'] at hcond
              have h3ne : r4.takeWhile Char.isDigit ≠ [] := by
                intro hnil
                have := hcond.1
                rw [hnil] at this
                cases this
              have hr4nil : r4.dropWhile Char.isDigit = [] := by
                have hb := hcond.2
                cases hx : (r4.dropWhile Char.isDigit) with
                | nil => rfl
                | cons y ys =>
                  rw [hx] at hb
                  exact absurd rfl hb
              have hr4split : r4 = r4.takeWhile Char.isDigit := by
                conv_lhs => rw [← List.takeWhile_append_dropWhile
                  (p := Char.isDigit) (l := r4)]
                rw [hr4nil, List.append_nil]
              have hr2eq : r2 = r2.takeWhile Char.isDigit
                  ++ c :: r4.takeWhile Char.isDigit := by
                conv_lhs => rw [hr2split, heq2]
                rw [← hr4split]
              refine ⟨(s.data.map Char.toLower).takeWhile Char.isDigit,
                r2.takeWhile Char.isDigit, c :: r4.takeWhile Char.isDigit, ?_,
                all_takeWhile _ _, all_takeWhile _ _, h2ne, ?_, ?_,
                Or.inr ⟨c, r4.takeWhile Char.isDigit, ?_, rfl, all_takeWhile _ _,
                  h3ne, ?_⟩⟩
              · rw [List.append_assoc, List.cons_append]
                conv_lhs => rw [hsplit, heq, hr2eq]
              · rw [← hm]
              · rw [← hm]
              · simpa using hsign
              · rw [← hm]
          · rw [if_neg hsign] at hm
            cases hm
  case _ heq => cases hm

theorem shape_has_d (s : String) (cnt : Option Nat) (sides : Nat) (mo : Option Int)
    (h : SimpleShape s cnt sides mo) : 'd' ∈ s.data.map Char.toLower := by
  obtain ⟨ds1, ds2, rest, hdata, _⟩ := h
  rw [hdata]
  simp

theorem parseIntJS_int_shape (pre ds : List Char)
    (hpre : pre = [] ∨ pre = ['+'] ∨ pre = ['-'])
    (hne : ds ≠ []) (hall : ds.all Char.isDigit = true) :
    parseIntJS (String.mk (pre ++ ds))
      = some ((if pre = ['-'] then -1 else 1) * (digitsToNat ds : Int)) := by
  obtain ⟨c1, dtl, rfl⟩ : ∃ c1 dtl, ds = c1 :: dtl := by
    cases ds with
    | nil => exact absurd rfl hne
    | cons x xs => exact ⟨x, xs, rfl⟩
  have hd1 : c1.isDigit = true := by
    simp only [List.all_cons, Bool.and_eq_true] at hall
    exact hall.1
  have hwc : isJSWhitespace c1 = false := ws_false_of_isDigit hd1
  have hnm : c1 ≠ '-' := isDigit_ne '-' hd1 (by decide)
  have hnp : c1 ≠ '+' := isDigit_ne '+' hd1 (by decide)
  have htake := takeWhile_all_eq (p := Char.isDigit) hall
  have hwsp : isJSWhitespace '+' = false := by decide
  have hwsm : isJSWhitespace '-' = false := by decide
  rcases hpre with rfl | rfl | rfl
  · cases hdt : dtl with
    | nil =>
      subst hdt
      simp [parseIntJS, List.dropWhile_cons, hwsp, hwsm, hwc, hnm, hnp, htake]
    | cons c2 dtl2 =>
      subst hdt
      have hd2 : c2.isDigit = true := by
        simp only [List.all_cons, Bool.and_eq_true] at hall
        exact hall.2.1
      have hx2 : c2 ≠ 'x' := isDigit_ne 'x' hd2 (by decide)
      have hX2 : c2 ≠ 'X' := isDigit_ne 'X' hd2 (by decide)
      simp [parseIntJS, List.dropWhile_cons, hwsp, hwsm, hwc, hnm, hnp, hx2, hX2, htake]
  · cases hdt : dtl with
    | nil =>
      subst hdt
      simp [parseIntJS, List.dropWhile_cons, hwsp, hwsm, hwc, hnm, hnp, htake]
    | cons c2 dtl2 =>
      subst hdt
      have hd2 : c2.isDigit = true := by
        simp only [List.all_cons, Bool.and_eq_true] at hall
        exact hall.2.1
      have hx2 : c2 ≠ 'x' := isDigit_ne 'x' hd2 (by decide)
      have hX2 : c2 ≠ 'X' := isDigit_ne 'X' hd2 (by decide)
      simp [parseIntJS, List.dropWhile_cons, hwsp, hwsm, hwc, hnm, hnp, hx2, hX2, htake]
  · cases hdt : dtl with
    | nil =>
      subst hdt
      simp [parseIntJS, List.dropWhile_cons, hwsp, hwsm, hwc, hnm, hnp, htake]
    | cons c2 dtl2 =>
      subst hdt
      have hd2 : c2.isDigit = true := by
        simp only [List.all_cons, Bool.and_eq_true] at hall
        exact hall.2.1
      have hx2 : c2 ≠ 'x' := isDigit_ne 'x' hd2 (by decide)
      have hX2 : c2 ≠ 'X' := isDigit_ne 'X' hd2 (by decide)
      simp [parseIntJS, List.dropWhile_cons, hwsp, hwsm, hwc, hnm, hnp, hx2, hX2, htake]

theorem parseIntJS_digits (ds : List Char) (hne : ds ≠ [])
    (hall : ds.all Char.isDigit = true) :
    parseIntJS (String.mk ds) = some (digitsToNat ds) := by
  have h := parseIntJS_int_shape [] ds (Or.inl rfl) hne hall
  simpa using h

theorem no_d_int_shape (pre ds : List Char)
    (hpre : pre = [] ∨ pre = ['+'] ∨ pre = ['-'])
    (hall : ds.all Char.isDigit = true) :
    'd' ∉ (pre ++ ds).map Char.toLower := by
  intro hmem
  rcases List.mem_map.mp hmem with ⟨ch, hch, hlow⟩
  rcases List.mem_append.mp hch with hin | hin
  · rcases hpre with rfl | rfl | rfl
    · cases hin
    · rcases List.mem_singleton.mp hin with rfl
      exact absurd hlow (by decide)
    · rcases List.mem_singleton.mp hin with rfl
      exact absurd hlow (by decide)
  · have hd : ch.isDigit = true := by
      rw [List.all_eq_true] at hall
      exact hall ch hin
    rw [toLower_of_isDigit hd] at hlow
    subst hlow
    exact absurd hd (by decide)

/-- C4 amended: the simple parser is a total function; for every string
of the valid simple-formula shape it returns the parsed triple (count
defaulting to 1, modifier to 0); for every other string it returns the
`parseInt` result (the longest signed integer prefix, even with trailing
garbage) as a pure constant when that exists, and the `{1, 20, 0}`
fallback only when `parseInt` yields `NaN`; in particular every valid
bare integer string yields `{0, 0, thatInt}`. -/
theorem parse_simple_trichotomy (s : String) :
    (∀ (cnt : Option Nat) (sides : Nat) (mo : Option Int),
      SimpleShape s cnt sides mo →
      parseFormula s = ⟨cnt.getD 1, sides, mo.getD 0⟩) ∧
    ((∀ cnt sides mo, ¬ SimpleShape s cnt sides mo) →
      parseFormula s
        = (match parseIntJS s with
            | some k => ⟨0, 0, k⟩
            | none => ⟨1, 20, 0⟩)) ∧
    (∀ pre ds : List Char, pre = [] ∨ pre = ['+'] ∨ pre = ['-'] → ds ≠ [] →
      ds.all Char.isDigit = true → s = String.mk (pre ++ ds) →
      parseFormula s = ⟨0, 0, (if pre = ['-'] then -1 else 1) * (digitsToNat ds : Int)⟩) := by
  refine ⟨?_, ?_, ?_⟩
  · intro cnt sides mo hsh
    obtain ⟨ds1, ds2, rest, hdata, h1, h2, h2ne, hcnt, hsides, hmo⟩ := hsh
    rcases hmo with ⟨hrest, hmo⟩ | ⟨c, ds3, hc, hrest, h3, h3ne, hmo⟩
    · subst hrest
      rw [List.append_nil] at hdata
      unfold parseFormula
      rw [hdata, simpleMatch_shape_plain ds1 ds2 h1 h2 h2ne]
      subst hcnt
      subst hsides
      subst hmo
      rfl
    · subst hrest
      unfold parseFormula
      rw [hdata, simpleMatch_shape_mod ds1 ds2 ds3 c hc h1 h2 h2ne h3 h3ne]
      subst hcnt
      subst hsides
      subst hmo
      rfl
  · intro hns
    cases hm : simpleMatch (s.data.map Char.toLower) with
    | some out => exact absurd (simpleMatch_some_shape s out hm) (hns _ _ _)
    | none =>
      unfold parseFormula
      rw [hm]
  · intro pre ds hpre hne hall hs
    subst hs
    have hnod := no_d_int_shape pre ds hpre hall
    have hm : simpleMatch ((String.mk (pre ++ ds)).data.map Char.toLower) = none := by
      cases hm2 : simpleMatch ((String.mk (pre ++ ds)).data.map Char.toLower) with
      | none => rfl
      | some out =>
        have hsh := simpleMatch_some_shape (String.mk (pre ++ ds)) out hm2
        exact absurd (shape_has_d _ _ _ _ hsh) hnod
    unfold parseFormula
    rw [hm, parseIntJS_int_shape pre ds hpre hne hall]

/-- C4 counterexample: `12abc` is neither a valid simple formula nor a
valid bare integer, yet the parser returns `{0, 0, 12}` (the `parseInt`
prefix), not the claimed `{1, 20, 0}` fallback. -/
theorem parse_simple_fallback_cex :
    parseFormula "12abc" = ⟨0, 0, 12⟩ ∧
    parseFormula "12abc" ≠ ⟨1, 20, 0⟩ ∧
    (∀ cnt sides mo, ¬ SimpleShape "12abc" cnt sides mo) ∧
    isBareIntString "12abc" = false := by
  refine ⟨by decide, by decide, ?_, by decide⟩
  intro cnt sides mo hsh
  exact absurd (shape_has_d _ _ _ _ hsh) (by decide)

/-- C4 witness: a valid simple formula parses to its triple, a valid bare
integer parses to a pure constant, and garbage gets the fallback. -/
theorem parse_simple_trichotomy_witness :
    parseFormula "2d6+4" = ⟨2, 6, 4⟩ ∧ parseFormula "-7" = ⟨0, 0, -7⟩ ∧
    parseFormula "xyz" = ⟨1, 20, 0⟩ := by
  refine ⟨?_, ?_, ?_⟩
  · have h := (parse_simple_trichotomy "2d6+4").1 (some 2) 6 (some 4)
      ⟨['2'], ['6'], ['+', '4'], by decide, by decide, by decide, by decide, by decide,
        by decide, Or.inr ⟨'+', ['4'], Or.inl rfl, rfl, by decide, by decide, by decide⟩⟩
    rw [h]
    decide
  · have h := (parse_simple_trichotomy "-7").2.2 ['-'] ['7']
      (Or.inr (Or.inr rfl)) (by decide) (by decide) (by decide)
    rw [h]
    decide
  · have h := (parse_simple_trichotomy "xyz").2.1 ?_
    · rw [h]
      decide
    · intro cnt sides mo hsh
      exact absurd (shape_has_d _ _ _ _ hsh) (by decide)

/-! ## C10: sign handling in the advanced parser -/

theorem dropWhile_len_le {α} (p : α → Bool) (l : List α) :
    (l.dropWhile p).length ≤ l.length := by
  induction l with
  | nil => simp
  | cons x xs ih =>
    rw [List.dropWhile_cons]
    by_cases hx : p x
    · simp only [hx, if_true]
      exact Nat.le_succ_of_le ih
    · simp [hx]

theorem matchTerm_rest_le (cs e r : List Char) (h : matchTerm cs = some (e, r)) :
    r.length ≤ cs.length := by
  unfold matchTerm at h
  dsimp only at h
  split at h
  case _ c0 r2 heq =>
    have hr2 : r2.length + 1 ≤ cs.length := by
      have := dropWhile_len_le Char.isDigit cs
      rw [heq] at this
      simpa using this
    by_cases hc0 : c0 = 'd'
    · rw [if_pos hc0] at h
      by_cases hemp : (r2.takeWhile Char.isDigit).isEmpty
      · rw [if_pos hemp] at h
        by_cases hemp1 : (cs.takeWhile Char.isDigit).isEmpty
        · rw [if_pos hemp1] at h; cases h
        · rw [if_neg hemp1] at h
          injection h with hpair
          injection hpair with he hr
          subst hr
          simpa using hr2
      · rw [if_neg hemp] at h
        injection h with hpair
        injection hpair with he hr
        subst hr
        calc (r2.dropWhile Char.isDigit).length ≤ r2.length := dropWhile_len_le _ _
          _ ≤ cs.length := by omega
    · rw [if_neg hc0] at h
      by_cases hemp1 : (cs.takeWhile Char.isDigit).isEmpty
      · rw [if_pos hemp1] at h; cases h
      · rw [if_neg hemp1] at h
        injection h with hpair
        injection hpair with he hr
        subst hr
        simpa using hr2
  case _ heq =>
    by_cases hemp1 : (cs.takeWhile Char.isDigit).isEmpty
    · rw [if_pos hemp1] at h; cases h
    · rw [if_neg hemp1] at h
      injection h with hpair
      injection hpair with he hr
      subst hr
      simp

theorem scanPartsF_fuel :
    ∀ (f g : Nat) (cs : List Char), cs.length ≤ f → cs.length ≤ g →
      scanPartsF f cs = scanPartsF g cs := by
  intro f
  induction f with
  | zero =>
    intro g cs hf hg
    have : cs = [] := List.length_eq_zero.mp (Nat.le_zero.mp hf)
    subst this
    cases g <;> rfl
  | succ f ih =>
    intro g cs hf hg
    cases cs with
    | nil => cases g <;> rfl
    | cons c rest =>
      cases g with
      | zero => simp at hg
      | succ g =>
        simp only [List.length_cons, Nat.succ_le_succ_iff] at hf hg
        unfold scanPartsF
        by_cases hsgn : (c = '+' || c = '-') = true
        · rw [if_pos hsgn, if_pos hsgn]
          cases hmt : matchTerm rest with
          | none =>
            dsimp only
            exact ih g rest hf hg
          | some er =>
            have hle := matchTerm_rest_le rest er.1 er.2 (by rw [hmt])
            dsimp only
            rw [ih g er.2 (le_trans hle hf) (le_trans hle hg)]
        · rw [if_neg hsgn, if_neg hsgn]
          exact ih g rest hf hg

theorem matchTerm_dice (ds1 ds2 : List Char)
    (h1 : ds1.all Char.isDigit = true) (h2 : ds2.all Char.isDigit = true)
    (h2ne : ds2 ≠ []) :
    matchTerm (ds1 ++ 'd' :: ds2) = some (ds1 ++ 'd' :: ds2, []) := by
  have hdd : Char.isDigit 'd' = false := by decide
  have hemp : ds2.isEmpty = false := by
    cases ds2 with
    | nil => exact absurd rfl h2ne
    | cons x xs => rfl
  unfold matchTerm
  dsimp only
  rw [dropWhile_append_sentinel _ _ _ _ hdd, takeWhile_append_sentinel _ _ _ _ hdd,
    dropWhile_all_eq h1, takeWhile_all_eq h1, List.nil_append]
  dsimp only
  rw [if_pos rfl, takeWhile_all_eq h2, hemp, dropWhile_all_eq h2]
  try dsimp only
  rfl

theorem matchTerm_flat (ds : List Char) (hne : ds ≠ [])
    (hall : ds.all Char.isDigit = true) :
    matchTerm ds = some (ds, []) := by
  have hemp : ds.isEmpty = false := by
    cases ds with
    | nil => exact absurd rfl hne
    | cons x xs => rfl
  unfold matchTerm
  dsimp only
  rw [dropWhile_all_eq hall, takeWhile_all_eq hall]
  dsimp only
  rw [hemp]
  try dsimp only
  rfl

theorem matchTerm_append (v w : List Char) (σ : Char) (hσd : σ.isDigit = false)
    (hσnd : σ ≠ 'd') :
    matchTerm (v ++ σ :: w)
      = (matchTerm v).map (fun er => (er.1, er.2 ++ σ :: w)) := by
  unfold matchTerm
  dsimp only
  rw [dropWhile_append_sentinel _ _ _ _ hσd, takeWhile_append_sentinel _ _ _ _ hσd]
  cases hdv : v.dropWhile Char.isDigit with
  | nil =>
    rw [List.nil_append]
    dsimp only
    rw [if_neg hσnd]
    by_cases hemp : (v.takeWhile Char.isDigit).isEmpty
    · rw [if_pos hemp, if_pos hemp]
      rfl
    · rw [if_neg hemp, if_neg hemp]
      rfl
  | cons c0 r2 =>
    rw [List.cons_append]
    dsimp only
    by_cases hc0 : c0 = 'd'
    · rw [if_pos hc0, if_pos hc0,
        takeWhile_append_sentinel _ _ _ _ hσd]
      by_cases hemp2 : (r2.takeWhile Char.isDigit).isEmpty
      · rw [if_pos hemp2, if_pos hemp2]
        by_cases hemp : (v.takeWhile Char.isDigit).isEmpty
        · rw [if_pos hemp, if_pos hemp]
          rfl
        · rw [if_neg hemp, if_neg hemp]
          rfl
      · rw [if_neg hemp2, if_neg hemp2,
          dropWhile_append_sentinel _ _ _ _ hσd]
        rfl
    · rw [if_neg hc0, if_neg hc0]
      by_cases hemp : (v.takeWhile Char.isDigit).isEmpty
      · rw [if_pos hemp, if_pos hemp]
        rfl
      · rw [if_neg hemp, if_neg hemp]
        rfl

theorem dMatchExpr_dice (ds1 ds2 : List Char)
    (h1 : ds1.all Char.isDigit = true) (h2 : ds2.all Char.isDigit = true)
    (h2ne : ds2 ≠ []) :
    dMatchExpr (ds1 ++ 'd' :: ds2)
      = some (if ds1.isEmpty then 1 else digitsToNat ds1, digitsToNat ds2) := by
  have hdd : Char.isDigit 'd' = false := by decide
  have hemp : ds2.isEmpty = false := by
    cases ds2 with
    | nil => exact absurd rfl h2ne
    | cons x xs => rfl
  unfold dMatchExpr
  dsimp only
  rw [dropWhile_append_sentinel _ _ _ _ hdd, takeWhile_append_sentinel _ _ _ _ hdd,
    dropWhile_all_eq h1, takeWhile_all_eq h1, List.nil_append]
  dsimp only
  rw [if_pos rfl, takeWhile_all_eq h2, hemp, dropWhile_all_eq h2]
  try dsimp only
  rfl

theorem contains_d_dice (ds1 ds2 : List Char) :
    (ds1 ++ 'd' :: ds2).contains 'd' = true := by
  simp [List.contains]

theorem not_contains_d_digits (ds : List Char) (hall : ds.all Char.isDigit = true) :
    ds.contains 'd' = false := by
  simp only [List.contains, List.elem_eq_mem, decide_eq_false_iff_not]
  intro hmem
  rw [List.all_eq_true] at hall
  exact absurd (hall 'd' hmem) (by decide)

theorem scanPartsF_append (term : List Char) (hterm : matchTerm term = some (term, []))
    (σ : Char) (hσ : σ = '+' ∨ σ = '-') :
    ∀ (f : Nat) (v : List Char), (v ++ σ :: term).length ≤ f →
      scanPartsF f (v ++ σ :: term) = scanPartsF f v ++ [(decide (σ = '-'), term)] := by
  have hσd : σ.isDigit = false := by rcases hσ with rfl | rfl <;> decide
  have hσnd : σ ≠ 'd' := by rcases hσ with rfl | rfl <;> decide
  have hσb : (σ = '+' || σ = '-') = true := by rcases hσ with rfl | rfl <;> simp
  intro f
  induction f with
  | zero =>
    intro v h
    rw [List.length_append, List.length_cons] at h
    omega
  | succ f ih =>
    intro v h
    cases v with
    | nil =>
      rw [List.nil_append]
      have hnil : scanPartsF f [] = [] := by cases f <;> rfl
      simp only [scanPartsF]
      rw [if_pos hσb, hterm]
      dsimp only
      rw [hnil]
      rfl
    | cons c v' =>
      have hlen : (v' ++ σ :: term).length ≤ f := by
        rw [List.cons_append, List.length_cons] at h
        omega
      simp only [List.cons_append, scanPartsF, List.append_eq]
      by_cases hsgn : (c = '+' || c = '-') = true
      · rw [if_pos hsgn, if_pos hsgn, matchTerm_append v' term σ hσd hσnd]
        cases hmt : matchTerm v' with
        | none =>
          dsimp only [Option.map]
          exact ih v' hlen
        | some er =>
          dsimp only [Option.map]
          have hle := matchTerm_rest_le v' er.1 er.2 (by rw [hmt])
          have hlen2 : (er.2 ++ σ :: term).length ≤ f := by
            rw [List.length_append, List.length_cons]
            rw [List.length_append, List.length_cons] at hlen
            omega
          rw [ih er.2 hlen2]
          rfl
      · rw [if_neg hsgn, if_neg hsgn]
        exact ih v' hlen

theorem scanParts_append (term : List Char) (hterm : matchTerm term = some (term, []))
    (σ : Char) (hσ : σ = '+' ∨ σ = '-') (v : List Char) :
    scanParts (v ++ σ :: term) = scanParts v ++ [(decide (σ = '-'), term)] := by
  unfold scanParts
  rw [scanPartsF_append term hterm σ hσ (v ++ σ :: term).length v le_rfl]
  congr 1
  refine scanPartsF_fuel _ _ v ?_ le_rfl
  rw [List.length_append]
  omega

theorem clean_fixed (t : List Char) (ht : ∀ c ∈ t, c.isDigit = true ∨ c = 'd') :
    (t.filter (fun c => !isJSWhitespace c)).map Char.toLower = t := by
  induction t with
  | nil => rfl
  | cons c rest ih =>
    have hc := ht c (by simp)
    have hrest := ih (fun x hx => ht x (by simp [hx]))
    have hws : isJSWhitespace c = false := by
      rcases hc with h | h
      · exact ws_false_of_isDigit h
      · subst h; decide
    have hlow : c.toLower = c := by
      rcases hc with h | h
      · exact toLower_of_isDigit h
      · subst h; decide
    simp [List.filter_cons, hws, hlow, hrest]

theorem normalizeAdv_append (s : String) (t : List Char)
    (ht : ∀ c ∈ t, c.isDigit = true ∨ c = 'd') :
    ∃ v : List Char, ∀ σ : Char, σ = '+' ∨ σ = '-' →
      normalizeAdv (s ++ String.mk (σ :: t)) = v ++ σ :: t := by
  have hdata : ∀ σ : Char, (s ++ String.mk (σ :: t)).data = s.data ++ σ :: t := by
    intro σ
    rw [String.data_append]
  have hclean : ∀ σ : Char, σ = '+' ∨ σ = '-' →
      ((s.data ++ σ :: t).filter (fun c => !isJSWhitespace c)).map Char.toLower
        = (s.data.filter (fun c => !isJSWhitespace c)).map Char.toLower ++ σ :: t := by
    intro σ hσ
    have hws : isJSWhitespace σ = false := by rcases hσ with rfl | rfl <;> decide
    have hlow : σ.toLower = σ := by rcases hσ with rfl | rfl <;> decide
    have hcons : ((σ :: t).filter (fun c => !isJSWhitespace c)).map Char.toLower
        = σ :: t := by
      simp [List.filter_cons, hws, hlow, clean_fixed t ht]
    rw [List.filter_append, List.map_append, hcons]
  cases hcs : (s.data.filter (fun c => !isJSWhitespace c)).map Char.toLower with
  | nil =>
    refine ⟨[], fun σ hσ => ?_⟩
    have hσb : (σ = '+' || σ = '-') = true := by rcases hσ with rfl | rfl <;> simp
    unfold normalizeAdv
    rw [hdata σ, hclean σ hσ, hcs, List.nil_append]
    dsimp only
    rw [if_pos hσb]
  | cons c0 cl =>
    by_cases hsgn : (c0 = '+' || c0 = '-') = true
    · refine ⟨c0 :: cl, fun σ hσ => ?_⟩
      unfold normalizeAdv
      rw [hdata σ, hclean σ hσ, hcs, List.cons_append]
      dsimp only
      rw [if_pos hsgn]
      try rfl
    · refine ⟨'+' :: c0 :: cl, fun σ hσ => ?_⟩
      unfold normalizeAdv
      rw [hdata σ, hclean σ hσ, hcs, List.cons_append]
      dsimp only
      rw [if_neg hsgn]
      try rfl

/-- C10: in the advanced formula parser the sign of a dice term is
ignored while the sign of a flat term is honored: appending `-NdS`
produces exactly the same parse (same single-die groups, same modifier)
as appending `+NdS`, and appending `-M` yields the same dice groups as
`+M` but a modifier smaller by `2 * M`. -/
theorem advanced_sign_behavior (s : String) (ds1 ds2 ds : List Char)
    (h1 : ds1.all Char.isDigit = true) (h2 : ds2.all Char.isDigit = true)
    (h2ne : ds2 ≠ []) (hd : ds.all Char.isDigit = true) (hdne : ds ≠ []) :
    parseFormulaAdvanced (s ++ String.mk ('-' :: (ds1 ++ 'd' :: ds2)))
      = parseFormulaAdvanced (s ++ String.mk ('+' :: (ds1 ++ 'd' :: ds2))) ∧
    (∃ G : List DiceGroup,
      (parseFormulaAdvanced (s ++ String.mk ('+' :: (ds1 ++ 'd' :: ds2)))).diceGroups
        = G ++ List.replicate (if ds1.isEmpty then 1 else digitsToNat ds1)
            ⟨1, digitsToNat ds2⟩) ∧
    (parseFormulaAdvanced (s ++ String.mk ('-' :: ds))).diceGroups
      = (parseFormulaAdvanced (s ++ String.mk ('+' :: ds))).diceGroups ∧
    (parseFormulaAdvanced (s ++ String.mk ('-' :: ds))).modifier
      = (parseFormulaAdvanced (s ++ String.mk ('+' :: ds))).modifier
        - 2 * (digitsToNat ds : Int) := by
  have htd : ∀ c ∈ ds1 ++ 'd' :: ds2, c.isDigit = true ∨ c = 'd' := by
    intro c hc
    rcases List.mem_append.mp hc with h | h
    · left; rw [List.all_eq_true] at h1; exact h1 c h
    · rcases List.mem_cons.mp h with rfl | h
      · right; rfl
      · left; rw [List.all_eq_true] at h2; exact h2 c h
  have htf : ∀ c ∈ ds, c.isDigit = true ∨ c = 'd' := by
    intro c hc
    left
    rw [List.all_eq_true] at hd
    exact hd c hc
  have hterm_d := matchTerm_dice ds1 ds2 h1 h2 h2ne
  have hterm_f := matchTerm_flat ds hdne hd
  obtain ⟨vd, hvd⟩ := normalizeAdv_append s (ds1 ++ 'd' :: ds2) htd
  obtain ⟨vf, hvf⟩ := normalizeAdv_append s ds htf
  have hscan_d : ∀ σ, (hσ : σ = '+' ∨ σ = '-') →
      scanParts (normalizeAdv (s ++ String.mk (σ :: (ds1 ++ 'd' :: ds2))))
        = scanParts vd ++ [(decide (σ = '-'), ds1 ++ 'd' :: ds2)] := by
    intro σ hσ
    rw [hvd σ hσ, scanParts_append _ hterm_d σ hσ]
  have hscan_f : ∀ σ, (hσ : σ = '+' ∨ σ = '-') →
      scanParts (normalizeAdv (s ++ String.mk (σ :: ds)))
        = scanParts vf ++ [(decide (σ = '-'), ds)] := by
    intro σ hσ
    rw [hvf σ hσ, scanParts_append _ hterm_f σ hσ]
  have hpp_d : ∀ (acc : AdvParse) (b : Bool),
      processPart acc (b, ds1 ++ 'd' :: ds2)
        = { acc with diceGroups := (acc.diceGroups
            ++ List.replicate (if ds1.isEmpty then 1 else digitsToNat ds1)
              ⟨1, digitsToNat ds2⟩) } := by
    intro acc b
    unfold processPart
    dsimp only
    rw [contains_d_dice, if_pos rfl, dMatchExpr_dice ds1 ds2 h1 h2 h2ne]
  have hpp_f : ∀ (acc : AdvParse) (b : Bool),
      processPart acc (b, ds)
        = { acc with modifier := (acc.modifier
            + (if b then -(digitsToNat ds : Int) else (digitsToNat ds : Int))) } := by
    intro acc b
    unfold processPart
    dsimp only
    rw [not_contains_d_digits ds hd, if_neg Bool.false_ne_true,
      parseIntJS_digits ds hdne hd]
    rfl
  refine ⟨?_, ?_, ?_, ?_⟩
  · unfold parseFormulaAdvanced
    rw [hscan_d '-' (Or.inr rfl), hscan_d '+' (Or.inl rfl), List.foldl_append,
      List.foldl_append, List.foldl_cons, List.foldl_nil, List.foldl_cons,
      List.foldl_nil, hpp_d, hpp_d]
  · unfold parseFormulaAdvanced
    rw [hscan_d '+' (Or.inl rfl), List.foldl_append, List.foldl_cons, List.foldl_nil,
      hpp_d]
    exact ⟨_, rfl⟩
  · unfold parseFormulaAdvanced
    rw [hscan_f '-' (Or.inr rfl), hscan_f '+' (Or.inl rfl), List.foldl_append,
      List.foldl_append, List.foldl_cons, List.foldl_nil, List.foldl_cons,
      List.foldl_nil, hpp_f, hpp_f]
  · unfold parseFormulaAdvanced
    rw [hscan_f '-' (Or.inr rfl), hscan_f '+' (Or.inl rfl), List.foldl_append,
      List.foldl_append, List.foldl_cons, List.foldl_nil, List.foldl_cons,
      List.foldl_nil, hpp_f, hpp_f]
    dsimp only
    simp only [decide_eq_true_eq]
    norm_num
    rw [if_neg (by decide : ('+' : Char) ≠ '-')]
    ring

/-- C10 witness: `2d6-3d4` parses identically to `2d6+3d4`, and `2d6-5`
has the same dice groups as `2d6+5` with modifier smaller by 10. -/
theorem advanced_sign_behavior_witness :
    parseFormulaAdvanced "2d6-3d4" = parseFormulaAdvanced "2d6+3d4" ∧
    (parseFormulaAdvanced "2d6-5").diceGroups
      = (parseFormulaAdvanced "2d6+5").diceGroups ∧
    (parseFormulaAdvanced "2d6-5").modifier
      = (parseFormulaAdvanced "2d6+5").modifier - 10 := by
  have h := advanced_sign_behavior "2d6" ['3'] ['4'] ['5']
    (by decide) (by decide) (by decide) (by decide) (by decide)
  refine ⟨?_, ?_, ?_⟩
  · have h1 := h.1
    have e1 : "2d6" ++ String.mk ('-' :: (['3'] ++ 'd' :: ['4'])) = "2d6-3d4" := by decide
    have e2 : "2d6" ++ String.mk ('+' :: (['3'] ++ 'd' :: ['4'])) = "2d6+3d4" := by decide
    rw [e1, e2] at h1
    exact h1
  · have h2 := h.2.2.1
    have e1 : "2d6" ++ String.mk ('-' :: ['5']) = "2d6-5" := by decide
    have e2 : "2d6" ++ String.mk ('+' :: ['5']) = "2d6+5" := by decide
    rw [e1, e2] at h2
    exact h2
  · have h3 := h.2.2.2
    have e1 : "2d6" ++ String.mk ('-' :: ['5']) = "2d6-5" := by decide
    have e2 : "2d6" ++ String.mk ('+' :: ['5']) = "2d6+5" := by decide
    rw [e1, e2] at h3
    rw [h3]
    decide

end Droll